import Mathlib

/-!
Verification of the function-routing agent of the `newberryai` repository
(`newberryai/agent.py`): the response normalizer `_clean_json_response`, the
dispatcher `process_query`, and the registry state they consult.

The embedding works over `List Char` / `String`.  Python library behaviour
that the agent relies on is modelled explicitly:
 * `str.strip` / `str.split()` / `" ".join` / `"```" in s` / `str.split("```")`
   are modelled by `pyStripL`, `pySplitWs`, `collapseL`, `hasFence`,
   `pySplitFence`;
 * `json.loads` / `json.dumps(..., separators=(',', ':'))` are modelled by
   `parseJson` / `dumpJson` over the `Json` inductive.  Numbers are modelled
   as integers (no floats appear in any property considered here); the parser
   follows Python's decoder on the integer fragment, including the rejection
   of leading zeros, trailing garbage and unescaped control characters, and
   duplicate object keys resolve to the last value at the first position,
   as `dict(pairs)` does.
-/

/-! ### Characters and Python-style whitespace -/

def qC : Char := Char.ofNat 34

def bsC : Char := Char.ofNat 92

def bqC : Char := Char.ofNat 96

def lbC : Char := Char.ofNat 123

def rbC : Char := Char.ofNat 125

def lkC : Char := Char.ofNat 91

def rkC : Char := Char.ofNat 93

def colonC : Char := Char.ofNat 58

def commaC : Char := Char.ofNat 44

def spC : Char := Char.ofNat 32

def nlC : Char := Char.ofNat 10

def tabC : Char := Char.ofNat 9

def crC : Char := Char.ofNat 13

def vtC : Char := Char.ofNat 11

def ffC : Char := Char.ofNat 12

def minusC : Char := Char.ofNat 45

def slashC : Char := Char.ofNat 47

/-- The whitespace set of Python's `str.strip()` / `str.split()`
(ASCII fragment). -/
def pyIsSpace (c : Char) : Bool :=
  c = spC || c = tabC || c = nlC || c = crC || c = vtC || c = ffC

/-- The whitespace set of Python's `json` module (`' \t\n\r'`). -/
def isJsonWs (c : Char) : Bool :=
  c = spC || c = tabC || c = nlC || c = crC

def isDigitC (c : Char) : Bool :=
  48 ≤ c.toNat && c.toNat ≤ 57

/-- Python `s.strip()` on the right end. -/
def dropTrailWs (s : List Char) : List Char :=
  (s.reverse.dropWhile pyIsSpace).reverse

/-- Python `s.strip()`. -/
def pyStripL (s : List Char) : List Char :=
  dropTrailWs (s.dropWhile pyIsSpace)

/-- Fuel-indexed worker for `pySplitWs` (the fuel is only a structural
termination device; `pySplitWs` always supplies enough). -/
def pySplitWsF : Nat → List Char → List (List Char)
  | 0, _ => []
  | f + 1, s =>
    match s with
    | [] => []
    | c :: cs =>
      if pyIsSpace c then pySplitWsF f cs
      else (c :: cs.takeWhile (fun d => !pyIsSpace d)) ::
        pySplitWsF f (cs.dropWhile (fun d => !pyIsSpace d))

/-- Python `s.split()` (split on whitespace runs, dropping empties). -/
def pySplitWs (s : List Char) : List (List Char) :=
  pySplitWsF (s.length + 1) s

/-- Python `" ".join(s.split())`: collapse every internal whitespace run to a
single space and trim the ends. -/
def collapseL (s : List Char) : List Char :=
  List.intercalate [spC] (pySplitWs s)

/-- Python `"```" in s`. -/
def hasFence (s : List Char) : Bool :=
  match s with
  | a :: b :: c :: t => (a = bqC && b = bqC && c = bqC) || hasFence (b :: c :: t)
  | _ => false

def fenceL : List Char := [bqC, bqC, bqC]

/-- Split off the part before the first occurrence of ```` ``` ```` together
with the remainder after it; `none` when no occurrence exists. -/
def breakOnFence : List Char → Option (List Char × List Char)
  | [] => none
  | c :: t =>
    if fenceL.isPrefixOf (c :: t) then some ([], (c :: t).drop 3)
    else
      match breakOnFence t with
      | some (p, r) => some (c :: p, r)
      | none => none

def splitFenceF : Nat → List Char → List (List Char)
  | 0, s => [s]
  | f + 1, s =>
    match breakOnFence s with
    | none => [s]
    | some (p, r) => p :: splitFenceF f r

/-- Python `s.split("```")`. -/
def pySplitFence (s : List Char) : List (List Char) :=
  splitFenceF (s.length + 1) s

/-! ### JSON values -/

inductive Json where
  | null : Json
  | bool (b : Bool) : Json
  | num (n : Int) : Json
  | str (s : String) : Json
  | arr (elems : List Json) : Json
  | obj (fields : List (String × Json)) : Json
deriving Inhabited

/-- First-match lookup in an association list (Python `dict` access for the
key-unique lists produced by the parser). -/
def lookupKey (kvs : List (String × Json)) (k : String) : Option Json :=
  match kvs with
  | [] => none
  | (k', v) :: t => if k' = k then some v else lookupKey t k

/-- Python `dict` insertion: an existing key keeps its position and receives
the new value, a new key is appended. -/
def upsert (k : String) (v : Json) : List (String × Json) → List (String × Json)
  | [] => [(k, v)]
  | (k', v') :: t => if k' = k then (k', v) :: t else (k', v') :: upsert k v t

/-- Python `dict(pairs)`. -/
def dedupPairs (l : List (String × Json)) : List (String × Json) :=
  l.foldl (fun acc kv => upsert kv.1 kv.2 acc) []

/-! ### Decimal digits -/

def digitChar (n : Nat) : Char :=
  match n with
  | 0 => '0' | 1 => '1' | 2 => '2' | 3 => '3' | 4 => '4'
  | 5 => '5' | 6 => '6' | 7 => '7' | 8 => '8' | _ => '9'

/-- Fuel-indexed worker for `natDigits`. -/
def natDigitsF : Nat → Nat → List Char
  | 0, _ => []
  | f + 1, n =>
    if n < 10 then [digitChar n]
    else natDigitsF f (n / 10) ++ [digitChar (n % 10)]

def natDigits (n : Nat) : List Char :=
  natDigitsF (n + 1) n

/-- Decimal rendering of a Python `int` (as `repr` / `json.dumps` print it). -/
def intDigits (i : Int) : List Char :=
  if i < 0 then minusC :: natDigits (-i).toNat else natDigits i.toNat

def hexDigit (n : Nat) : Char :=
  match n with
  | 0 => '0' | 1 => '1' | 2 => '2' | 3 => '3' | 4 => '4'
  | 5 => '5' | 6 => '6' | 7 => '7' | 8 => '8' | 9 => '9'
  | 10 => 'a' | 11 => 'b' | 12 => 'c' | 13 => 'd' | 14 => 'e' | _ => 'f'

def uEsc4 (n : Nat) : List Char :=
  [bsC, 'u', hexDigit (n / 4096 % 16), hexDigit (n / 256 % 16),
   hexDigit (n / 16 % 16), hexDigit (n % 16)]

/-- `ensure_ascii` escape of a non-printable or non-ASCII character, with
surrogate pairs above the BMP, as Python's `json.dumps` emits. -/
def uEsc (n : Nat) : List Char :=
  if n < 65536 then uEsc4 n
  else uEsc4 (55296 + (n - 65536) / 1024) ++ uEsc4 (56320 + (n - 65536) % 1024)

/-- How `json.dumps` (default `ensure_ascii=True`) renders one character of a
string. -/
def escChar (c : Char) : List Char :=
  if c = qC then [bsC, qC]
  else if c = bsC then [bsC, bsC]
  else if c = nlC then [bsC, 'n']
  else if c = tabC then [bsC, 't']
  else if c = crC then [bsC, 'r']
  else if c.toNat = 8 then [bsC, 'b']
  else if c.toNat = 12 then [bsC, 'f']
  else if c.toNat < 32 || 127 ≤ c.toNat then uEsc c.toNat
  else [c]

/-- `json.dumps` rendering of a string literal. -/
def dumpStrL (s : String) : List Char :=
  qC :: s.data.foldr (fun c acc => escChar c ++ acc) [qC]

mutual

/-- `json.dumps(v, separators=(',', ':'))`: Python's compact canonical
serialization. -/
def jdump : Json → List Char
  | .null => (("null")).data
  | .bool true => (("true")).data
  | .bool false => (("false")).data
  | .num i => intDigits i
  | .str s => dumpStrL s
  | .arr xs => lkC :: dumpElemsF xs
  | .obj kvs => lbC :: dumpMembersF kvs

def dumpElemsF : List Json → List Char
  | [] => [rkC]
  | x :: xs => jdump x ++ dumpElemsR xs

def dumpElemsR : List Json → List Char
  | [] => [rkC]
  | x :: xs => commaC :: (jdump x ++ dumpElemsR xs)

def dumpMembersF : List (String × Json) → List Char
  | [] => [rbC]
  | (k, v) :: t => dumpStrL k ++ (colonC :: (jdump v ++ dumpMembersR t))

def dumpMembersR : List (String × Json) → List Char
  | [] => [rbC]
  | (k, v) :: t => commaC :: (dumpStrL k ++ (colonC :: (jdump v ++ dumpMembersR t)))

end

def dumpJson (j : Json) : String :=
  String.mk (jdump j)

/-! ### A model of `json.loads` (integer-number fragment) -/

def skipWs (s : List Char) : List Char :=
  s.dropWhile isJsonWs

/-- Prepend a decoded character to the result of the rest of the scan. -/
def mapCons (c : Char) (o : Option (List Char × List Char)) :
    Option (List Char × List Char) :=
  match o with
  | some (s, r) => some (c :: s, r)
  | none => none

def isHexC (c : Char) : Bool :=
  (48 ≤ c.toNat && c.toNat ≤ 57) || (65 ≤ c.toNat && c.toNat ≤ 70) ||
    (97 ≤ c.toNat && c.toNat ≤ 102)

def hexVal (c : Char) : Nat :=
  if c.toNat ≤ 57 then c.toNat - 48
  else if c.toNat ≤ 70 then c.toNat - 55
  else c.toNat - 87

/-- Fuel-indexed worker for `parseStrContent`. -/
def parseStrContentF : Nat → List Char → Option (List Char × List Char)
  | 0, _ => none
  | f + 1, s =>
    match s with
    | [] => none
    | c :: cs =>
      if c = qC then some ([], cs)
      else if c = bsC then
        match cs with
        | [] => none
        | d :: cs' =>
          if d = qC then mapCons qC (parseStrContentF f cs')
          else if d = bsC then mapCons bsC (parseStrContentF f cs')
          else if d = slashC then mapCons slashC (parseStrContentF f cs')
          else if d = 'b' then mapCons (Char.ofNat 8) (parseStrContentF f cs')
          else if d = 'f' then mapCons ffC (parseStrContentF f cs')
          else if d = 'n' then mapCons nlC (parseStrContentF f cs')
          else if d = 'r' then mapCons crC (parseStrContentF f cs')
          else if d = 't' then mapCons tabC (parseStrContentF f cs')
          else if d = 'u' then
            match cs' with
            | h1 :: h2 :: h3 :: h4 :: cs'' =>
              if isHexC h1 && isHexC h2 && isHexC h3 && isHexC h4 then
                mapCons (Char.ofNat (4096 * hexVal h1 + 256 * hexVal h2 +
                  16 * hexVal h3 + hexVal h4)) (parseStrContentF f cs'')
              else none
            | _ => none
          else none
      else if c.toNat < 32 then none
      else mapCons c (parseStrContentF f cs)

/-- Scan the body of a string literal after the opening quote: returns the
decoded characters and the input after the closing quote.  Follows Python's
strict decoder: unescaped control characters are rejected, the usual
backslash escapes and `\uXXXX` are decoded. -/
def parseStrContent (s : List Char) : Option (List Char × List Char) :=
  parseStrContentF (s.length + 1) s

/-- Digit-run scan of an integer literal, with Python's leading-zero
rejection. -/
def parseNatPart (cs : List Char) : Option (Nat × List Char) :=
  match cs with
  | c :: _ =>
    if isDigitC c then
      let ds := cs.takeWhile isDigitC
      if 1 < ds.length && ds.head? = some '0' then none
      else some (ds.foldl (fun a d => a * 10 + (d.toNat - 48)) 0,
        cs.dropWhile isDigitC)
    else none
  | [] => none

/-- Integer literal (model restriction: floats are not modelled, so a
fraction or exponent continuation is a parse failure rather than a float). -/
def parseNum (cs : List Char) : Option (Json × List Char) :=
  match cs with
  | c :: cs' =>
    if c = minusC then
      match parseNatPart cs' with
      | some (n, r) => some (.num (-(n : Int)), r)
      | none => none
    else
      match parseNatPart cs with
      | some (n, r) => some (.num ((n : Int)), r)
      | none => none
  | [] => none

mutual

/-- One JSON value at the head of the input (whitespace already skipped),
returning the value and the rest of the input. -/
def parseValue : Nat → List Char → Option (Json × List Char)
  | 0, _ => none
  | Nat.succ f, cs =>
    match cs with
    | [] => none
    | c :: cs' =>
      if c = lbC then
        match skipWs cs' with
        | [] => none
        | d :: cs3 =>
          if d = rbC then some (.obj [], cs3) else parseMembers f (d :: cs3) []
      else if c = lkC then
        match skipWs cs' with
        | [] => none
        | d :: cs3 =>
          if d = rkC then some (.arr [], cs3) else parseElems f (d :: cs3) []
      else if c = qC then
        match parseStrContent cs' with
        | some (s, r) => some (.str (String.mk s), r)
        | none => none
      else if c = 't' then
        match cs' with
        | 'r' :: 'u' :: 'e' :: r => some (.bool true, r)
        | _ => none
      else if c = 'f' then
        match cs' with
        | 'a' :: 'l' :: 's' :: 'e' :: r => some (.bool false, r)
        | _ => none
      else if c = 'n' then
        match cs' with
        | 'u' :: 'l' :: 'l' :: r => some (.null, r)
        | _ => none
      else parseNum cs

/-- Members of an object, positioned at the start of a key (whitespace
skipped, at least one member expected). -/
def parseMembers : Nat → List Char → List (String × Json) →
    Option (Json × List Char)
  | 0, _, _ => none
  | Nat.succ f, cs, acc =>
    match cs with
    | [] => none
    | c :: cs' =>
      if c = qC then
        match parseStrContent cs' with
        | some (kchars, r) =>
          match skipWs r with
          | [] => none
          | d :: r3 =>
            if d = colonC then
              match parseValue f (skipWs r3) with
              | some (v, r4) =>
                match skipWs r4 with
                | [] => none
                | e :: r6 =>
                  if e = commaC then
                    parseMembers f (skipWs r6) (acc ++ [(String.mk kchars, v)])
                  else if e = rbC then
                    some (.obj (dedupPairs (acc ++ [(String.mk kchars, v)])), r6)
                  else none
              | none => none
            else none
        | none => none
      else none

/-- Elements of an array, positioned at the start of a value (whitespace
skipped, at least one element expected). -/
def parseElems : Nat → List Char → List Json → Option (Json × List Char)
  | 0, _, _ => none
  | Nat.succ f, cs, acc =>
    match parseValue f cs with
    | some (v, r) =>
      match skipWs r with
      | [] => none
      | e :: r2 =>
        if e = commaC then parseElems f (skipWs r2) (acc ++ [v])
        else if e = rkC then some (.arr (acc ++ [v]), r2)
        else none
    | none => none

end

/-- `json.loads`: leading and trailing whitespace allowed, anything after the
single top-level value is an error. -/
def parseJson (s : String) : Option Json :=
  let cs := skipWs s.data
  match parseValue (cs.length + 1) cs with
  | some (j, r) => if skipWs r = [] then some j else none
  | none => none

/-! ### Exceptions

Python exceptions are modelled by class-tagged values.  `CallErr` is the
exception a registered callable itself raises; `PyExc` is an exception
travelling through the dispatcher's `try` block, where the structured
constructors correspond to the dispatcher's own `raise ValueError(...)`
sites and `fromCallable` embeds a callable's exception.  The `except` clause
chosen in `process_query` depends only on the Python class
(`json.JSONDecodeError` / `KeyError` / `Exception`), which `handleExc`
reproduces. -/

inductive CallErr where
  | keyError (k : String)
  | jsonDecode (m : String)
  | valueError (m : String)
  | typeError (m : String)
  | other (m : String)
deriving DecidableEq

inductive PyExc where
  | jsonDecode (m : String)
  | keyError (k : String)
  | invalidJson (pfx : String)
  | unknownFunction (fname : String) (available : List String)
  | missingParameter (p : String)
  | typeError (m : String)
  | fromCallable (e : CallErr)
deriving DecidableEq

/-- The error as `process_query` finally raises it (always a `ValueError` in
the source; the constructor records which `except` clause produced it). -/
inductive AgentError where
  | emptyRegistry
  | parseFailed (respPfx : String) (m : String)
  | missingField (k : String)
  | processing (e : PyExc)
deriving DecidableEq

def take100 (s : String) : String :=
  String.mk (s.data.take 100)

/-- The `except` clauses of `process_query` in source order:
`json.JSONDecodeError`, then `KeyError`, then `Exception`. -/
def handleExc (response : String) (e : PyExc) : AgentError :=
  match e with
  | .jsonDecode m => .parseFailed (take100 response) m
  | .fromCallable (.jsonDecode m) => .parseFailed (take100 response) m
  | .keyError k => .missingField k
  | .fromCallable (.keyError k) => .missingField k
  | e' => .processing e'

/-- Python `str()` of a callable-raised exception, as interpolated into
`f"Error processing query: {str(e)}"`. -/
def pyStrCallErr : CallErr → String
  | .keyError k => ("'") ++ k ++ ("'")
  | .jsonDecode m => m
  | .valueError m => m
  | .typeError m => m
  | .other m => m

/-- Python `", ".join(names)`. -/
def joinComma : List String → String
  | [] => ("")
  | [s] => s
  | s :: t => s ++ (", ") ++ joinComma t

/-- Python `str()` of a `try`-block exception. -/
def pyStrExc : PyExc → String
  | .jsonDecode m => m
  | .keyError k => ("'") ++ k ++ ("'")
  | .invalidJson pfx => ("Invalid JSON response: ") ++ pfx ++ ("...")
  | .unknownFunction f names =>
      ("Function ") ++ f ++ (" not found. Available functions: ") ++
        joinComma names
  | .missingParameter p => ("Missing required parameter: ") ++ p
  | .typeError m => m
  | .fromCallable e => pyStrCallErr e

/-- The message of the `ValueError` that `process_query` raises. -/
def errMessage : AgentError → String
  | .emptyRegistry => ("No functions registered with the agent")
  | .parseFailed pfx m =>
      ("Failed to parse LLM response as JSON. Response: ") ++ pfx ++
        ("... Error: ") ++ m
  | .missingField k =>
      ("Missing required field in LLM response: '") ++ k ++ ("'")
  | .processing e => ("Error processing query: ") ++ pyStrExc e

/-! ### The registry state -/

/-- Modelled from the spec: the registry implementation
(`function_registry.py`) is not under `src/`; §3's `FunctionEntry` data model
gives each parameter's metadata as `{name, type, required, description}`,
which is exactly what `agent.py` reads from
`registry.descriptions[name]["parameters"]`. -/
structure ParamMeta where
  name : String
  type : String
  required : Bool
  description : String

/-- Modelled from the spec: a registered operation (§3 `FunctionEntry`):
unique `name`, the callable (invoked by the dispatcher only), its
description, and its parameter metadata.  The callable is modelled as a
function from the keyword-argument mapping to a result or a raised
exception. -/
structure FunctionEntry where
  name : String
  call : List (String × Json) → Except CallErr Json
  description : String
  params : List ParamMeta

/-- Modelled from the spec: the registry owns the `FunctionEntry` catalog
(§3); `registry.functions` maps names to callables and
`registry.descriptions` maps names to metadata, both derived from the same
entries. -/
structure FunctionRegistry where
  entries : List FunctionEntry

/-- `registry.list_functions()`: the ordered sequence of registered names. -/
def FunctionRegistry.listFunctions (r : FunctionRegistry) : List String :=
  r.entries.map (fun e => e.name)

/-! ### The dispatcher -/

structure DispatchResult where
  result : Json
  function_called : String
  parameters_used : Json
  reasoning : Json

/-- Externally observable effects of one `process_query` call: the single
model call and the single callable invocation. -/
inductive AgentEvent where
  | askEv (prompt : String)
  | callEv (fname : String) (args : List (String × Json))

structure ProcResult where
  registryAfter : FunctionRegistry
  events : List AgentEvent
  outcome : Except AgentError DispatchResult

def jsonTagL : List Char := ['j', 's', 'o', 'n']

/-- `response.split("```")[1]` (guarded in the source by the preceding
`"```" in response` check, which guarantees at least two parts). -/
def extractFenced (r1 : List Char) : List Char :=
  match pySplitFence r1 with
  | _ :: x :: _ => x
  | _ => []

/-- `if response.startswith("json"): response = response[4:]`. -/
def stripJsonTag (m : List Char) : List Char :=
  if jsonTagL.isPrefixOf m then m.drop 4 else m

/-- The tail of `_clean_json_response` after fence extraction: strip,
collapse whitespace, parse, re-serialize canonically; `ValueError` with the
first 100 characters of the offending (collapsed) text on parse failure. -/
def tailPhase (m : List Char) : Except PyExc String :=
  let r4 := collapseL (pyStripL m)
  match parseJson (String.mk r4) with
  | some parsed => .ok (dumpJson parsed)
  | none => .error (.invalidJson (String.mk (r4.take 100)))

/-- `Agent._clean_json_response`. -/
def cleanJsonResponse (response : String) : Except PyExc String :=
  let r1 := pyStripL response.data
  if hasFence r1 then tailPhase (stripJsonTag (extractFenced r1)) else tailPhase r1

/-- Placeholder for the decoder's diagnostic text (the exact
`json.JSONDecodeError` message is not modelled; no property depends on it).
This branch is in fact unreachable from `process_query`, because
`_clean_json_response` only returns strings it has itself re-serialized. -/
def jsonDecodeMsg : String :=
  ("Expecting value")

/-- Lines 73–74 of `agent.py`: normalize the raw response, then
`json.loads` the cleaned string. -/
def decisionOf (response : String) : Except PyExc Json :=
  match cleanJsonResponse response with
  | .error e => .error e
  | .ok cleaned =>
    match parseJson cleaned with
    | some r => .ok r
    | none => .error (.jsonDecode jsonDecodeMsg)

/-- Python substring test `needle in hay`. -/
def containsSubstrL (needle : List Char) : List Char → Bool
  | [] => needle.isEmpty
  | h :: t => needle.isPrefixOf (h :: t) || containsSubstrL needle t

/-- Python `key in x` for a parsed JSON value `x`: key membership for a
dict, element equality for a list, substring for a string, `TypeError`
otherwise. -/
def pyInJson (key : String) : Json → Except PyExc Bool
  | .obj kvs => .ok (kvs.any (fun kv => kv.1 = key))
  | .arr xs => .ok (xs.any (fun x => match x with | .str s => s = key | _ => false))
  | .str s => .ok (containsSubstrL key.data s.data)
  | _ => .error (.typeError ("argument of type is not iterable"))

/-- The validation loop of `process_query` (lines 84–86): the first
parameter that is `required` and whose name is not in `parameters` raises
`Missing required parameter`; a non-required parameter is never tested for
membership. -/
def checkParams : List ParamMeta → Json → Except PyExc Unit
  | [], _ => .ok ()
  | pm :: rest, parameters =>
    if pm.required then
      match pyInJson pm.name parameters with
      | .error e => .error e
      | .ok true => checkParams rest parameters
      | .ok false => .error (.missingParameter pm.name)
    else checkParams rest parameters

/-- Python `str()` of a parsed JSON value, for the f-string of the
unknown-function message (only reachable for hashable values). -/
def pyStrOfJson : Json → String
  | .str s => s
  | .num i => String.mk (intDigits i)
  | .bool true => ("True")
  | .bool false => ("False")
  | .null => ("None")
  | j => dumpJson j

/-! ### The prompt builder -/

mutual

/-- `json.dumps(v, indent=2)` (separators default to `(',', ': ')` when an
indent is given); `ind` is the indentation of the closing delimiter. -/
def jdumpI : Nat → Json → List Char
  | _, .obj [] => [lbC, rbC]
  | ind, .obj (kv :: t) =>
      lbC :: nlC :: (jdumpMembersI (ind + 2) (kv :: t) ++
        (nlC :: (List.replicate ind spC ++ [rbC])))
  | _, .arr [] => [lkC, rkC]
  | ind, .arr (x :: t) =>
      lkC :: nlC :: (jdumpElemsI (ind + 2) (x :: t) ++
        (nlC :: (List.replicate ind spC ++ [rkC])))
  | _, j => jdump j

def jdumpMembersI : Nat → List (String × Json) → List Char
  | _, [] => []
  | ind, [(k, v)] =>
      List.replicate ind spC ++ (dumpStrL k ++ (colonC :: spC :: jdumpI ind v))
  | ind, (k, v) :: t =>
      List.replicate ind spC ++ (dumpStrL k ++ (colonC :: spC :: jdumpI ind v)) ++
        (commaC :: nlC :: jdumpMembersI ind t)

def jdumpElemsI : Nat → List Json → List Char
  | _, [] => []
  | ind, [x] => List.replicate ind spC ++ jdumpI ind x
  | ind, x :: t =>
      List.replicate ind spC ++ jdumpI ind x ++ (commaC :: nlC :: jdumpElemsI ind t)

end

/-- Modelled from the spec: the metadata record `register` derives for one
parameter (§3: `{name, type, required, description}`). -/
def pmJson (pm : ParamMeta) : Json :=
  .obj [(("name"), .str pm.name), (("type"), .str pm.type),
    (("required"), .bool pm.required), (("description"), .str pm.description)]

/-- Modelled from the spec: one entry of `registry.descriptions` (§4.1): the
function's description and its parameter schema. -/
def entryMetaJson (e : FunctionEntry) : Json :=
  .obj [(("description"), .str e.description),
    (("parameters"), .arr (e.params.map pmJson))]

/-- Modelled from the spec: `registry.descriptions` as a name-keyed mapping,
directly serializable for the prompt builder. -/
def descriptionsJson (reg : FunctionRegistry) : Json :=
  .obj (reg.entries.map (fun e => (e.name, entryMetaJson e)))

def promptPre : String :=
  ("You are a function router that maps user queries to the most appropriate function. Your response must be a valid JSON object.\n\n                User Query: ")

def promptMid : String :=
  ("\n\n                Available Functions (with metadata):\n                ")

def promptPost : String :=
  ("\n\n                Instructions:\n                1. Analyze the user query and available functions\n                2. Select the most appropriate function based on its description and parameters\n                3. Extract parameter values from the query, respecting parameter types\n                4. Return a JSON object in EXACTLY this format, with NO ADDITIONAL WHITESPACE or FORMATTING:\n                \x7b\"function\":\"<function_name>\",\"parameters\":\x7b\"<param_name>\":\"<param_value>\"\x7d,\"reasoning\":\"<one_line_explanation>\"\x7d\n\n                Critical Rules:\n                - Response must be a SINGLE LINE of valid JSON\n                - NO line breaks, NO extra spaces\n                - NO markdown formatting or code blocks\n                - ALL strings must use double quotes\n                - Function name must be from available functions\n                - ALL required parameters must be included\n                - Parameter values must match the expected type\n                - Reasoning must be brief and single-line\n\n                Example Valid Response:\n                \x7b\"function\":\"get_weather\",\"parameters\":\x7b\"location\":\"New York\"\x7d,\"reasoning\":\"Query asks about weather in a specific location\"\x7d\n\n                Response (SINGLE LINE JSON):")

/-- `Agent._create_function_prompt`. -/
def createFunctionPrompt (reg : FunctionRegistry) (query : String) : String :=
  promptPre ++ query ++ promptMid ++
    String.mk (jdumpI 0 (descriptionsJson reg)) ++ promptPost

/-! ### `process_query` -/

/-- `Agent.process_query`, with the registry state threaded through and the
externally observable effects (model call, callable invocation) recorded.
`ask` is the external assistant's `ask(question=...)` capability. -/
def runProcessQuery (reg : FunctionRegistry) (ask : String → String)
    (query : String) : ProcResult :=
  if reg.entries.isEmpty then
    ⟨reg, [], .error .emptyRegistry⟩
  else
    let prompt := createFunctionPrompt reg query
    let response := ask prompt
    match decisionOf response with
    | .error e => ⟨reg, [.askEv prompt], .error (handleExc response e)⟩
    | .ok result =>
      match result with
      | .obj kvs =>
        match lookupKey kvs ("function") with
        | none =>
            ⟨reg, [.askEv prompt],
              .error (handleExc response (.keyError ("function")))⟩
        | some funcNameJ =>
          match lookupKey kvs ("parameters") with
          | none =>
              ⟨reg, [.askEv prompt],
                .error (handleExc response (.keyError ("parameters")))⟩
          | some parameters =>
            let reasoning :=
              (lookupKey kvs ("reasoning")).getD (Json.str ("No reasoning provided"))
            match funcNameJ with
            | .obj _ =>
                ⟨reg, [.askEv prompt],
                  .error (handleExc response (.typeError ("unhashable type: dict")))⟩
            | .arr _ =>
                ⟨reg, [.askEv prompt],
                  .error (handleExc response (.typeError ("unhashable type: list")))⟩
            | .str fname =>
              match reg.entries.find? (fun e => e.name = fname) with
              | none =>
                  ⟨reg, [.askEv prompt],
                    .error (handleExc response
                      (.unknownFunction fname reg.listFunctions))⟩
              | some entry =>
                match checkParams entry.params parameters with
                | .error e => ⟨reg, [.askEv prompt], .error (handleExc response e)⟩
                | .ok _ =>
                  match parameters with
                  | .obj pkvs =>
                    match entry.call pkvs with
                    | .ok v =>
                        ⟨reg, [.askEv prompt, .callEv fname pkvs],
                          .ok ⟨v, fname, parameters, reasoning⟩⟩
                    | .error ce =>
                        ⟨reg, [.askEv prompt, .callEv fname pkvs],
                          .error (handleExc response (.fromCallable ce))⟩
                  | _ =>
                      ⟨reg, [.askEv prompt],
                        .error (handleExc response
                          (.typeError ("argument after ** must be a mapping")))⟩
            | other =>
                ⟨reg, [.askEv prompt],
                  .error (handleExc response
                    (.unknownFunction (pyStrOfJson other) reg.listFunctions))⟩
      | _ =>
          ⟨reg, [.askEv prompt],
            .error (handleExc response
              (.typeError ("value is not subscriptable")))⟩

/-- The value `process_query` returns (or the error it raises). -/
def processQuery (reg : FunctionRegistry) (ask : String → String)
    (query : String) : Except AgentError DispatchResult :=
  (runProcessQuery reg ask query).outcome

/-! ### Helper predicates and concrete sample data for instantiation -/

/-- Key membership of a parameter mapping (a parsed JSON object). -/
def hasKey (P : List (String × Json)) (n : String) : Bool :=
  P.any (fun kv => kv.1 = n)

/-- Outcome classifier: the `ExecutionError` kind (generic handler wrapping a
callable-raised exception). -/
def isExecutionError : Except AgentError DispatchResult → Bool
  | .error (.processing (.fromCallable _)) => true
  | _ => false

/-- Outcome classifier: the `MissingParameter` kind. -/
def isMissingParamErr : Except AgentError DispatchResult → Bool
  | .error (.processing (.missingParameter _)) => true
  | _ => false

def pmReq (n : String) : ParamMeta :=
  ⟨n, ("str"), true, ("")⟩

def pmOpt (n : String) : ParamMeta :=
  ⟨n, ("str"), false, ("")⟩

def entWeather : FunctionEntry :=
  ⟨("get_weather"), fun args =>
      .ok (Json.arr [Json.str ("weather"), (lookupKey args ("location")).getD Json.null]),
    ("Get the weather for a location"), [pmReq ("location")]⟩

def entTwoReq : FunctionEntry :=
  ⟨("book"), fun _ => .ok Json.null, ("Book a trip"),
    [pmReq ("a"), pmReq ("b"), pmOpt ("c")]⟩

def entKeyRaise : FunctionEntry :=
  ⟨("lookup_row"), fun _ => .error (.keyError ("boom")), ("Raises KeyError"), []⟩

def entValRaise : FunctionEntry :=
  ⟨("flaky"), fun _ => .error (.other ("kaput")), ("Raises RuntimeError"), []⟩

def regWeather : FunctionRegistry := ⟨[entWeather]⟩

def regTwoReq : FunctionRegistry := ⟨[entTwoReq]⟩

def regKeyRaise : FunctionRegistry := ⟨[entKeyRaise]⟩

def regValRaise : FunctionRegistry := ⟨[entValRaise]⟩

def regTwo : FunctionRegistry := ⟨[entWeather, entValRaise]⟩

def askConst (s : String) : String → String := fun _ => s

def respWeather : String :=
  ("\x7b\"function\":\"get_weather\",\"parameters\":\x7b\"location\":\"New York\"\x7d,\"reasoning\":\"Query asks about weather in a specific location\"\x7d")

def respNoParams (f : String) : String :=
  ("\x7b\"function\":\"") ++ f ++ ("\",\"parameters\":\x7b\x7d\x7d")

/-- Class test mirroring the handler dispatch: is a callable-raised
exception a `KeyError` or a `json.JSONDecodeError` (the two classes with
dedicated `except` clauses before the generic one)? -/
def isKeyOrDecode : CallErr → Bool
  | .keyError _ => true
  | .jsonDecode _ => true
  | _ => false

/-! ### Well-formedness predicates for normalizer properties -/

/-- A printable ASCII character that needs no `json.dumps` escaping and
cannot interact with fence detection or whitespace collapsing: not a quote,
backslash, backtick, and not whitespace. -/
def plainC (c : Char) : Bool :=
  (33 ≤ c.toNat && c.toNat ≤ 126) && c ≠ qC && c ≠ bsC && c ≠ bqC

/-- `plainC` or a space. -/
def plainSpC (c : Char) : Bool :=
  c = spC || plainC c

/-- No two adjacent whitespace characters. -/
def noDoubleSpace : List Char → Bool
  | a :: b :: t => (!(pyIsSpace a && pyIsSpace b)) && noDoubleSpace (b :: t)
  | _ => true

/-- A string whose canonical dump is unaffected by whitespace collapsing:
plain characters or single internal spaces. -/
def strOkB (s : String) : Bool :=
  s.data.all plainSpC && noDoubleSpace s.data

/-- Pairwise-distinct object keys. -/
def keysNodupB : List (String × Json) → Bool
  | [] => true
  | (k, _) :: t => (!(t.any (fun kv => kv.1 = k))) && keysNodupB t

mutual

/-- Every string of the value is `strOkB` and every object has distinct
keys. -/
def plainJ : Json → Bool
  | .null => true
  | .bool _ => true
  | .num _ => true
  | .str s => strOkB s
  | .arr xs => plainL xs
  | .obj kvs => plainM kvs && keysNodupB kvs

def plainL : List Json → Bool
  | [] => true
  | x :: xs => plainJ x && plainL xs

def plainM : List (String × Json) → Bool
  | [] => true
  | (k, v) :: t => strOkB k && plainJ v && plainM t

end

mutual

/-- Fuel lower bound under which `parseValue` is complete on dumps. -/
def jweight : Json → Nat
  | .null => 1
  | .bool _ => 1
  | .num _ => 1
  | .str _ => 1
  | .arr xs => lweight xs + 1
  | .obj kvs => mweight kvs + 1

def lweight : List Json → Nat
  | [] => 0
  | x :: xs => max (jweight x) (lweight xs) + 1

def mweight : List (String × Json) → Nat
  | [] => 0
  | (_, v) :: t => max (jweight v) (mweight t) + 1

end

/-- A dump fragment that whitespace collapsing leaves intact: nonempty, no
backtick, whitespace only as single internal spaces, non-whitespace at both
ends. -/
def goodRun (s : List Char) : Prop :=
  s ≠ [] ∧ (∀ c ∈ s, c = spC ∨ (pyIsSpace c = false ∧ c ≠ bqC)) ∧
    noDoubleSpace s = true ∧
    (∀ c, s.head? = some c → pyIsSpace c = false) ∧
    (∀ c, s.getLast? = some c → pyIsSpace c = false)

/-- The single-line decision object of C6's schema. -/
def decisionObj (f a x r : String) : Json :=
  .obj [(("function"), .str f),
        (("parameters"), .obj [(a, .str x)]),
        (("reasoning"), .str r)]

/-- The canonical single-line rendering of the C6 decision. -/
def singleLineDecision (f a x r : String) : String :=
  dumpJson (decisionObj f a x r)

/-- The same decision wrapped in a fenced code block with a leading `json`
language tag and extra internal newlines (after each top-level comma). -/
def fencedDecision (f a x r : String) : String :=
  ("```json\n\x7b\"function\":\"") ++ f ++ ("\",\n\"parameters\":\x7b\"") ++ a ++
    ("\":\"") ++ x ++ ("\"\x7d,\n\"reasoning\":\"") ++ r ++ ("\"\x7d\n```")

/-- The text standing between the two fence markers of `fencedDecision`:
language tag, newline, then the decision with its internal newlines. -/
def fencedMid (f a x r : String) : List Char :=
  ("json\n\x7b\"function\":\"").data ++ f.data ++
    ("\",\n\"parameters\":\x7b\"").data ++ a.data ++ ("\":\"").data ++
    x.data ++ ("\"\x7d,\n\"reasoning\":\"").data ++ r.data ++ ("\"\x7d\n").data

/-- `fencedMid` with the language tag and the two surrounding newlines
removed: the decision text, still holding its two internal newlines. -/
def fencedBody (f a x r : String) : List Char :=
  ("\x7b\"function\":\"").data ++ f.data ++
    ("\",\n\"parameters\":\x7b\"").data ++ a.data ++ ("\":\"").data ++
    x.data ++ ("\"\x7d,\n\"reasoning\":\"").data ++ r.data ++ ("\"\x7d").data

/-- `fencedBody` after whitespace collapsing: each internal newline has
become one space. -/
def spacedDecision (f a x r : String) : List Char :=
  ("\x7b\"function\":\"").data ++ f.data ++
    ("\", \"parameters\":\x7b\"").data ++ a.data ++ ("\":\"").data ++
    x.data ++ ("\"\x7d, \"reasoning\":\"").data ++ r.data ++ ("\"\x7d").data

/-- The first whitespace-free run of `fencedBody`. -/
def decWord1 (f : String) : List Char :=
  ("\x7b\"function\":\"").data ++ f.data ++ [qC, commaC]

/-- The second whitespace-free run of `fencedBody`. -/
def decWord2 (a x : String) : List Char :=
  ("\"parameters\":\x7b\"").data ++ a.data ++ ("\":\"").data ++ x.data ++
    [qC, rbC, commaC]

/-- The third whitespace-free run of `fencedBody`. -/
def decWord3 (r : String) : List Char :=
  ("\"reasoning\":\"").data ++ r.data ++ [qC, rbC]

/-! ## Theorems -/

theorem isEmpty_false_of_find {reg : FunctionRegistry}
    {p : FunctionEntry → Bool} {entry : FunctionEntry}
    (h : reg.entries.find? p = some entry) : reg.entries.isEmpty = false := by
  cases he : reg.entries with
  | nil => rw [he] at h; simp [List.find?] at h
  | cons a t => simp [List.isEmpty]

theorem checkParams_find (params : List ParamMeta) (P : List (String × Json)) :
    checkParams params (.obj P) =
      (match params.find? (fun pm => pm.required && !(hasKey P pm.name)) with
       | some pm0 => .error (.missingParameter pm0.name)
       | none => .ok ()) := by
  induction params with
  | nil => rfl
  | cons pm rest ih =>
    simp only [checkParams, List.find?]
    cases hr : pm.required with
    | false => simpa [hr, hasKey] using ih
    | true =>
      cases hk : P.any (fun kv => kv.1 = pm.name) with
      | true => simpa [pyInJson, hasKey, hr, hk] using ih
      | false => simp [pyInJson, hasKey, hr, hk]

/-- C2: with no registered functions, `process_query` fails with the
`EmptyRegistry` kind, and the external model is never consulted (no `ask`
event is recorded). -/
theorem claim_C2_empty_registry (reg : FunctionRegistry)
    (ask : String → String) (query : String) (h : reg.entries = []) :
    runProcessQuery reg ask query = ⟨reg, [], .error .emptyRegistry⟩ := by
  unfold runProcessQuery
  simp [h, List.isEmpty]

theorem claim_C2_witness :
    runProcessQuery ⟨[]⟩ (askConst respWeather) ("hi") =
      ⟨⟨[]⟩, [], .error .emptyRegistry⟩ :=
  claim_C2_empty_registry ⟨[]⟩ (askConst respWeather) ("hi") rfl

/-- C9: `process_query` never mutates the registry: the registry state after
any call, successful or failed, is the state before it. -/
theorem claim_C9_registry_frame (reg : FunctionRegistry)
    (ask : String → String) (query : String) :
    (runProcessQuery reg ask query).registryAfter = reg := by
  unfold runProcessQuery
  dsimp only
  repeat' split
  all_goals rfl

/-- C10: a `KeyError` raised by the invoked callable is caught by the same
`except KeyError` clause that handles a missing top-level field, so it
surfaces as the `Missing required field in LLM response` kind, not as an
execution-error kind — the `KeyError` handler encloses the invocation as
well as the field accesses. -/
theorem claim_C10_keyerror_handler
    (reg : FunctionRegistry) (ask : String → String) (query : String)
    (d : List (String × Json)) (fname k : String) (entry : FunctionEntry)
    (P : List (String × Json))
    (h1 : decisionOf (ask (createFunctionPrompt reg query)) = .ok (.obj d))
    (h2 : lookupKey d ("function") = some (.str fname))
    (h3 : lookupKey d ("parameters") = some (.obj P))
    (h4 : reg.entries.find? (fun e => e.name = fname) = some entry)
    (h5 : checkParams entry.params (.obj P) = .ok ())
    (h6 : entry.call P = .error (.keyError k)) :
    processQuery reg ask query = .error (.missingField k) ∧
    isExecutionError (processQuery reg ask query) = false := by
  have hne := isEmpty_false_of_find h4
  have hmain : processQuery reg ask query = .error (.missingField k) := by
    unfold processQuery runProcessQuery
    dsimp only
    simp only [hne, Bool.false_eq_true, if_false, h1, h2, h3, h4, h5, h6]
    rfl
  exact ⟨hmain, by rw [hmain]; rfl⟩

theorem claim_C10_witness :
    processQuery regKeyRaise (askConst (respNoParams ("lookup_row"))) ("q") =
        .error (.missingField ("boom")) ∧
    isExecutionError
        (processQuery regKeyRaise (askConst (respNoParams ("lookup_row"))) ("q")) =
      false :=
  claim_C10_keyerror_handler regKeyRaise (askConst (respNoParams ("lookup_row")))
    ("q") [(("function"), .str ("lookup_row")), (("parameters"), .obj [])]
    ("lookup_row") ("boom") entKeyRaise [] rfl rfl rfl rfl rfl rfl

/-- C5 (amended): an exception raised by the invoked callable that is not a
`KeyError` and not a `json.JSONDecodeError` surfaces through the generic
handler as the `ExecutionError` kind, with the original exception preserved
inside the wrapper (and its text preserved in the message); a `KeyError` or
`JSONDecodeError` from the callable is instead intercepted by the earlier
dedicated `except` clauses (see C10). -/
theorem claim_C5_execution_error
    (reg : FunctionRegistry) (ask : String → String) (query : String)
    (d : List (String × Json)) (fname : String) (entry : FunctionEntry)
    (P : List (String × Json)) (ce : CallErr)
    (h1 : decisionOf (ask (createFunctionPrompt reg query)) = .ok (.obj d))
    (h2 : lookupKey d ("function") = some (.str fname))
    (h3 : lookupKey d ("parameters") = some (.obj P))
    (h4 : reg.entries.find? (fun e => e.name = fname) = some entry)
    (h5 : ∀ pm ∈ entry.params, pm.required = true → hasKey P pm.name = true)
    (h6 : entry.call P = .error ce)
    (h7 : isKeyOrDecode ce = false) :
    processQuery reg ask query = .error (.processing (.fromCallable ce)) ∧
    errMessage (.processing (.fromCallable ce)) =
      ("Error processing query: ") ++ pyStrCallErr ce := by
  have hne := isEmpty_false_of_find h4
  have hcp : checkParams entry.params (.obj P) = .ok () := by
    rw [checkParams_find]
    have hfind : entry.params.find?
        (fun pm => pm.required && !(hasKey P pm.name)) = none := by
      rw [List.find?_eq_none]
      intro pm hm
      by_cases hr : pm.required = true
      · simp [hr, h5 pm hm hr]
      · simp [hr]
    rw [hfind]
  have hhandle : handleExc (ask (createFunctionPrompt reg query))
      (.fromCallable ce) = .processing (.fromCallable ce) := by
    cases ce <;> simp [isKeyOrDecode] at h7 ⊢ <;> rfl
  refine ⟨?_, rfl⟩
  unfold processQuery runProcessQuery
  dsimp only
  simp only [hne, Bool.false_eq_true, if_false, h1, h2, h3, h4, hcp, h6, hhandle]

theorem claim_C5_witness :
    processQuery regValRaise (askConst (respNoParams ("flaky"))) ("q") =
        .error (.processing (.fromCallable (.other ("kaput")))) ∧
    errMessage (.processing (.fromCallable (.other ("kaput")))) =
      ("Error processing query: ") ++ pyStrCallErr (.other ("kaput")) :=
  claim_C5_execution_error regValRaise (askConst (respNoParams ("flaky"))) ("q")
    [(("function"), .str ("flaky")), (("parameters"), .obj [])] ("flaky")
    entValRaise [] (.other ("kaput")) rfl rfl rfl rfl
    (by intro pm hm; simp [entValRaise] at hm) rfl rfl

/-- C5 counterexample: the claim as stated covers every callable-raised
exception, but a `KeyError` raised by the callable is caught by the
`except KeyError` clause and surfaces as the missing-field kind, not as an
`ExecutionError`. -/
theorem claim_C5_counterexample :
    entKeyRaise.call [] = .error (.keyError ("boom")) ∧
    processQuery regKeyRaise (askConst (respNoParams ("lookup_row"))) ("q") =
        .error (.missingField ("boom")) ∧
    isExecutionError
        (processQuery regKeyRaise (askConst (respNoParams ("lookup_row"))) ("q")) =
      false :=
  ⟨rfl, rfl, rfl⟩

/-- C4 (amended): for a validated selection of `f`, (a) when the parameter
mapping omits one or more required parameters, dispatch raises the
`MissingParameter` kind naming the *first* such parameter in `f`'s metadata
order (in particular, when `p` is the only omitted required parameter the
error names `p`); and (b) when every required parameter is present, the
`MissingParameter` kind is never raised, even with all optional parameters
omitted. -/
theorem claim_C4_missing_parameter
    (reg : FunctionRegistry) (ask : String → String) (query : String)
    (d : List (String × Json)) (fname : String) (entry : FunctionEntry)
    (P : List (String × Json))
    (h1 : decisionOf (ask (createFunctionPrompt reg query)) = .ok (.obj d))
    (h2 : lookupKey d ("function") = some (.str fname))
    (h3 : lookupKey d ("parameters") = some (.obj P))
    (h4 : reg.entries.find? (fun e => e.name = fname) = some entry) :
    (∀ pm0, entry.params.find?
        (fun pm => pm.required && !(hasKey P pm.name)) = some pm0 →
      processQuery reg ask query =
        .error (.processing (.missingParameter pm0.name))) ∧
    (entry.params.find?
        (fun pm => pm.required && !(hasKey P pm.name)) = none →
      isMissingParamErr (processQuery reg ask query) = false) := by
  have hne := isEmpty_false_of_find h4
  constructor
  · intro pm0 hf
    have hcp : checkParams entry.params (.obj P) =
        .error (.missingParameter pm0.name) := by
      rw [checkParams_find, hf]
    unfold processQuery runProcessQuery
    dsimp only
    simp only [hne, Bool.false_eq_true, if_false, h1, h2, h3, h4, hcp]
    rfl
  · intro hf
    have hcp : checkParams entry.params (.obj P) = .ok () := by
      rw [checkParams_find, hf]
    unfold processQuery runProcessQuery
    dsimp only
    simp only [hne, Bool.false_eq_true, if_false, h1, h2, h3, h4, hcp]
    cases hc : entry.call P with
    | ok v => simp [hc, isMissingParamErr]
    | error ce => cases ce <;> simp [hc, isMissingParamErr, handleExc]

theorem claim_C4_witness :
    processQuery regTwoReq (askConst (respNoParams ("book"))) ("q") =
      .error (.processing (.missingParameter ("a"))) :=
  (claim_C4_missing_parameter regTwoReq (askConst (respNoParams ("book"))) ("q")
      [(("function"), .str ("book")), (("parameters"), .obj [])] ("book")
      entTwoReq [] rfl rfl rfl rfl).1 (pmReq ("a")) rfl

/-- C4 counterexample: `book` marks both `a` and `b` required (in that
order); the decision's mapping omits both.  Instantiating the claim at
`p = "b"` demands an error naming `b`, but the dispatcher names `a`, the
first required parameter missing in metadata order. -/
theorem claim_C4_counterexample :
    (pmReq ("b")) ∈ entTwoReq.params ∧ (pmReq ("b")).required = true ∧
    hasKey [] ("b") = false ∧
    processQuery regTwoReq (askConst (respNoParams ("book"))) ("q") ≠
      .error (.processing (.missingParameter ("b"))) := by
  refine ⟨by simp [entTwoReq, pmReq, pmOpt], rfl, rfl, ?_⟩
  have he : processQuery regTwoReq (askConst (respNoParams ("book"))) ("q") =
      .error (.processing (.missingParameter ("a"))) := rfl
  rw [he]
  intro hcontra
  simp only [Except.error.injEq] at hcontra
  exact absurd hcontra (by decide)

/-- C1: when the model's response normalizes and parses to a decision
selecting registered function `f` with a parameter mapping `P` containing
every required parameter of `f`, and the callable returns `v` on `P`,
`process_query` returns the `DispatchResult` with `result = v`,
`function_called = f`'s name, `parameters_used = P`, and `reasoning` equal
to the decision's reasoning field, defaulting to `"No reasoning provided"`
when that field is absent. -/
theorem claim_C1_success_dispatch
    (reg : FunctionRegistry) (ask : String → String) (query : String)
    (d : List (String × Json)) (fname : String) (entry : FunctionEntry)
    (P : List (String × Json)) (v : Json)
    (h1 : decisionOf (ask (createFunctionPrompt reg query)) = .ok (.obj d))
    (h2 : lookupKey d ("function") = some (.str fname))
    (h3 : lookupKey d ("parameters") = some (.obj P))
    (h4 : reg.entries.find? (fun e => e.name = fname) = some entry)
    (h5 : ∀ pm ∈ entry.params, pm.required = true → hasKey P pm.name = true)
    (h6 : entry.call P = .ok v) :
    processQuery reg ask query = .ok
      ⟨v, fname, .obj P,
        (lookupKey d ("reasoning")).getD (Json.str ("No reasoning provided"))⟩ := by
  have hne := isEmpty_false_of_find h4
  have hcp : checkParams entry.params (.obj P) = .ok () := by
    rw [checkParams_find]
    have hfind : entry.params.find?
        (fun pm => pm.required && !(hasKey P pm.name)) = none := by
      rw [List.find?_eq_none]
      intro pm hm
      by_cases hr : pm.required = true
      · simp [hr, h5 pm hm hr]
      · simp [hr]
    rw [hfind]
  unfold processQuery runProcessQuery
  dsimp only
  simp only [hne, Bool.false_eq_true, if_false, h1, h2, h3, h4, hcp, h6]

set_option maxRecDepth 8192 in
theorem claim_C1_witness :
    processQuery regWeather (askConst respWeather) ("What is the weather in New York?") =
      .ok ⟨Json.arr [Json.str ("weather"), Json.str ("New York")],
        ("get_weather"), .obj [(("location"), Json.str ("New York"))],
        Json.str ("Query asks about weather in a specific location")⟩ :=
  claim_C1_success_dispatch regWeather (askConst respWeather)
    ("What is the weather in New York?")
    [(("function"), .str ("get_weather")),
     (("parameters"), .obj [(("location"), .str ("New York"))]),
     (("reasoning"), .str ("Query asks about weather in a specific location"))]
    ("get_weather") entWeather [(("location"), .str ("New York"))]
    (Json.arr [Json.str ("weather"), Json.str ("New York")])
    rfl rfl rfl rfl
    (by intro pm hm hr; simp [entWeather, pmReq] at hm; simp [hm, hasKey]) rfl

theorem infix_of_infix_append_left {α : Type} {x y : List α} (z : List α)
    (h : x <:+: y) : x <:+: z ++ y := by
  obtain ⟨a, b, hab⟩ := h
  exact ⟨z ++ a, b, by rw [← hab]; simp [List.append_assoc]⟩

theorem mem_infix_joinComma {n : String} {l : List String} (h : n ∈ l) :
    n.data <:+: (joinComma l).data := by
  induction l with
  | nil => cases h
  | cons s t ih =>
    cases t with
    | nil =>
      rcases List.mem_cons.mp h with h1 | h1
      · subst h1; exact List.infix_refl _
      · cases h1
    | cons s2 t2 =>
      rcases List.mem_cons.mp h with h1 | h2
      · subst h1
        refine ⟨[], ((", ") ++ joinComma (s2 :: t2)).data, ?_⟩
        show n.data ++ _ = (joinComma (n :: s2 :: t2)).data
        simp only [joinComma, String.data_append]
        simp [String.data_append, List.append_assoc]
      · have hin := ih h2
        have : (joinComma (s2 :: t2)).data <:+:
            (joinComma (s :: s2 :: t2)).data := by
          show _ <:+: (s ++ (", ") ++ joinComma (s2 :: t2)).data
          simp only [String.data_append]
          exact ⟨s.data ++ (", ").data, [], by simp [List.append_assoc]⟩
        exact hin.trans this

/-- C3 (amended): for a registry with at least one registered function — a
model call only happens then; on an empty registry `EmptyRegistry` fires
first (see the counterexample) — a decision naming a function outside the
registry makes `process_query` raise the `UnknownFunction` kind, the final
error message contains every registered name, and no registered callable is
invoked. -/
theorem claim_C3_unknown_function
    (reg : FunctionRegistry) (ask : String → String) (query : String)
    (d : List (String × Json)) (fname : String) (pJ : Json)
    (hne : reg.entries.isEmpty = false)
    (h1 : decisionOf (ask (createFunctionPrompt reg query)) = .ok (.obj d))
    (h2 : lookupKey d ("function") = some (.str fname))
    (h3 : lookupKey d ("parameters") = some pJ)
    (h4 : reg.entries.find? (fun e => e.name = fname) = none) :
    processQuery reg ask query =
      .error (.processing (.unknownFunction fname reg.listFunctions)) ∧
    (∀ n ∈ reg.listFunctions, n.data <:+:
      (errMessage (.processing (.unknownFunction fname reg.listFunctions))).data) ∧
    (∀ f args, AgentEvent.callEv f args ∉ (runProcessQuery reg ask query).events) := by
  have hrun : runProcessQuery reg ask query =
      ⟨reg, [.askEv (createFunctionPrompt reg query)],
        .error (.processing (.unknownFunction fname reg.listFunctions))⟩ := by
    unfold runProcessQuery
    dsimp only
    simp only [hne, Bool.false_eq_true, if_false, h1, h2, h3, h4]
    rfl
  refine ⟨by unfold processQuery; rw [hrun], ?_, ?_⟩
  · intro n hn
    show n.data <:+: (("Error processing query: ") ++ pyStrExc
      (.unknownFunction fname reg.listFunctions)).data
    have hj : n.data <:+: (joinComma reg.listFunctions).data :=
      mem_infix_joinComma hn
    have : (joinComma reg.listFunctions).data <:+:
        (("Error processing query: ") ++ pyStrExc
          (.unknownFunction fname reg.listFunctions)).data := by
      show (joinComma reg.listFunctions).data <:+:
        (("Error processing query: ") ++ (("Function ") ++ fname ++
          (" not found. Available functions: ") ++ joinComma reg.listFunctions)).data
      simp only [String.data_append]
      exact ⟨(("Error processing query: ")).data ++ (("Function ")).data ++
        fname.data ++ ((" not found. Available functions: ")).data, [],
        by simp [List.append_assoc]⟩
    exact hj.trans this
  · intro f args
    rw [hrun]
    intro hmem
    simp at hmem

theorem claim_C3_witness :
    processQuery regTwo (askConst (respNoParams ("ghost"))) ("q") =
      .error (.processing (.unknownFunction ("ghost") regTwo.listFunctions)) :=
  (claim_C3_unknown_function regTwo (askConst (respNoParams ("ghost"))) ("q")
    [(("function"), .str ("ghost")), (("parameters"), .obj [])] ("ghost")
    (.obj []) rfl rfl rfl rfl rfl).1

/-- C3 counterexample: the claim quantifies over *every* registry state, but
on the empty registry a decision naming an absent function still produces
`EmptyRegistry` (raised before the model is consulted), not
`UnknownFunction`. -/
theorem claim_C3_counterexample :
    decisionOf (askConst (respNoParams ("ghost"))
        (createFunctionPrompt ⟨[]⟩ ("q"))) =
      .ok (.obj [(("function"), .str ("ghost")), (("parameters"), .obj [])]) ∧
    processQuery ⟨[]⟩ (askConst (respNoParams ("ghost"))) ("q") =
      .error .emptyRegistry ∧
    processQuery ⟨[]⟩ (askConst (respNoParams ("ghost"))) ("q") ≠
      .error (.processing
        (.unknownFunction ("ghost") (FunctionRegistry.listFunctions ⟨[]⟩))) := by
  refine ⟨rfl, rfl, ?_⟩
  intro hcontra
  have he : processQuery ⟨[]⟩ (askConst (respNoParams ("ghost"))) ("q") =
      .error .emptyRegistry := rfl
  rw [he] at hcontra
  simp only [Except.error.injEq] at hcontra
  exact AgentError.noConfusion hcontra

/-! ### C8: fence extraction -/

theorem dropWhile_append_nonstop {p : Char → Bool} (a : List Char)
    (c : Char) (r : List Char) (hc : p c = false) :
    (a ++ c :: r).dropWhile p = a.dropWhile p ++ c :: r := by
  induction a with
  | nil => simp [List.dropWhile, hc]
  | cons x xs ih =>
    by_cases hx : p x = true
    · simpa [List.dropWhile, hx] using ih
    · simp only [Bool.not_eq_true] at hx
      simp [List.dropWhile, hx]

theorem dropTrailWs_append (x : List Char) (c : Char) (y : List Char)
    (hc : pyIsSpace c = false) :
    dropTrailWs (x ++ c :: y) = x ++ c :: dropTrailWs y := by
  unfold dropTrailWs
  rw [show (x ++ c :: y).reverse = y.reverse ++ c :: x.reverse by simp]
  rw [dropWhile_append_nonstop _ _ _ hc]
  simp

theorem pyIsSpace_bqC : pyIsSpace bqC = false := by decide

theorem pyStripL_fenced (pre mid post : List Char) :
    pyStripL (pre ++ fenceL ++ mid ++ fenceL ++ post) =
      pre.dropWhile pyIsSpace ++ fenceL ++ mid ++ fenceL ++ dropTrailWs post := by
  unfold pyStripL
  rw [show pre ++ fenceL ++ mid ++ fenceL ++ post =
    pre ++ bqC :: ([bqC, bqC] ++ mid ++ fenceL ++ post) by simp [fenceL]]
  rw [dropWhile_append_nonstop _ _ _ pyIsSpace_bqC]
  rw [show pre.dropWhile pyIsSpace ++ bqC :: ([bqC, bqC] ++ mid ++ fenceL ++ post) =
    (pre.dropWhile pyIsSpace ++ fenceL ++ mid ++ [bqC, bqC]) ++ bqC :: post by
      simp [fenceL]]
  rw [dropTrailWs_append _ _ _ pyIsSpace_bqC]
  simp [fenceL]

theorem hasFence_cons_of (c : Char) (l : List Char) (h : hasFence l = true) :
    hasFence (c :: l) = true := by
  match l with
  | [] => simp [hasFence] at h
  | [x] => simp [hasFence] at h
  | x :: y :: t =>
    unfold hasFence
    rw [h]
    simp

theorem hasFence_append_fence (x y : List Char) :
    hasFence (x ++ (fenceL ++ y)) = true := by
  induction x with
  | nil => simp [fenceL, hasFence]
  | cons c xs ih => exact hasFence_cons_of c _ ih

theorem fence_not_isPrefixOf (c : Char) (l : List Char) (hc : c ≠ bqC) :
    fenceL.isPrefixOf (c :: l) = false := by
  simp [fenceL, List.isPrefixOf]
  intro h
  exact absurd h.symm hc

theorem breakOnFence_clean (a R : List Char) (ha : ∀ c ∈ a, c ≠ bqC) :
    breakOnFence (a ++ (fenceL ++ R)) = some (a, R) := by
  induction a with
  | nil =>
    show breakOnFence (bqC :: ([bqC, bqC] ++ R)) = some ([], R)
    unfold breakOnFence
    simp [fenceL, List.isPrefixOf]
  | cons c cs ih =>
    have hc : c ≠ bqC := ha c (by simp)
    show breakOnFence (c :: (cs ++ (fenceL ++ R))) = some (c :: cs, R)
    unfold breakOnFence
    rw [fence_not_isPrefixOf c (cs ++ (fenceL ++ R)) hc]
    rw [ih (fun d hd => ha d (by simp [hd]))]
    simp

theorem splitFenceF_step (n : Nat) (s p r : List Char)
    (h : breakOnFence s = some (p, r)) :
    splitFenceF (n + 1) s = p :: splitFenceF n r := by
  show (match breakOnFence s with
    | none => [s]
    | some (p, r) => p :: splitFenceF n r) = p :: splitFenceF n r
  rw [h]

theorem pySplitFence_fenced (pre mid R : List Char)
    (hpre : ∀ c ∈ pre, c ≠ bqC) (hmid : ∀ c ∈ mid, c ≠ bqC) :
    ∃ rest, pySplitFence (pre ++ fenceL ++ mid ++ fenceL ++ R) =
      pre :: mid :: rest := by
  unfold pySplitFence
  obtain ⟨k, hk⟩ : ∃ k,
      (pre ++ fenceL ++ mid ++ fenceL ++ R).length + 1 = k + 2 :=
    ⟨(pre ++ fenceL ++ mid ++ fenceL ++ R).length - 1, by simp [fenceL]; omega⟩
  rw [hk]
  rw [show pre ++ fenceL ++ mid ++ fenceL ++ R =
    pre ++ (fenceL ++ (mid ++ (fenceL ++ R))) by simp]
  rw [splitFenceF_step (k + 1) _ _ _
    (breakOnFence_clean pre (mid ++ (fenceL ++ R)) hpre)]
  rw [splitFenceF_step k _ _ _ (breakOnFence_clean mid R hmid)]
  exact ⟨splitFenceF k R, rfl⟩

theorem cleanJson_fenced_data (resp : String) (pre mid post : List Char)
    (hd : resp.data = pre ++ fenceL ++ mid ++ fenceL ++ post)
    (hpre : ∀ c ∈ pre, c ≠ bqC) (hmid : ∀ c ∈ mid, c ≠ bqC) :
    cleanJsonResponse resp = tailPhase (stripJsonTag mid) := by
  unfold cleanJsonResponse
  dsimp only
  rw [hd, pyStripL_fenced]
  have hpre1 : ∀ c ∈ pre.dropWhile pyIsSpace, c ≠ bqC := by
    intro c hin
    exact hpre c ((List.dropWhile_sublist _).mem hin)
  have hfence : hasFence (pre.dropWhile pyIsSpace ++ fenceL ++ mid ++
      fenceL ++ dropTrailWs post) = true := by
    rw [show pre.dropWhile pyIsSpace ++ fenceL ++ mid ++ fenceL ++
      dropTrailWs post = pre.dropWhile pyIsSpace ++
        (fenceL ++ (mid ++ fenceL ++ dropTrailWs post)) by simp]
    exact hasFence_append_fence _ _
  rw [hfence]
  obtain ⟨rest, hsplit⟩ := pySplitFence_fenced (pre.dropWhile pyIsSpace)
    mid (dropTrailWs post) hpre1 hmid
  simp only [if_true]
  unfold extractFenced
  rw [hsplit]

/-- C8: for a response of the form `pre ++ "```" ++ mid ++ "```" ++ post`
(no backticks in `pre` or `mid`), the normalizer processes exactly `mid`:
text before the opening fence and trailing prose after the closing fence
are discarded, and the rest of the pipeline — language-tag strip,
whitespace collapse, parse, canonical re-serialization — runs on `mid`
alone. -/
theorem claim_C8_fence_extraction (pre mid post : String)
    (hpre : ∀ c ∈ pre.data, c ≠ bqC) (hmid : ∀ c ∈ mid.data, c ≠ bqC) :
    cleanJsonResponse (pre ++ ("```") ++ mid ++ ("```") ++ post) =
      tailPhase (stripJsonTag mid.data) :=
  cleanJson_fenced_data _ pre.data mid.data post.data
    (by simp [String.data_append]; rfl) hpre hmid

theorem claim_C8_witness :
    cleanJsonResponse (("Here is the routing decision: ") ++ ("```") ++
        ("json\n\x7b\"function\":\"f\",\"parameters\":\x7b\x7d\x7d\n") ++
        ("```") ++ (" Hope this helps!")) =
      tailPhase (stripJsonTag
        (("json\n\x7b\"function\":\"f\",\"parameters\":\x7b\x7d\x7d\n")).data) :=
  claim_C8_fence_extraction ("Here is the routing decision: ")
    ("json\n\x7b\"function\":\"f\",\"parameters\":\x7b\x7d\x7d\n")
    (" Hope this helps!") (by decide) (by decide)

/-- C7 counterexample: `{"a":"x  y"}` is canonical (it is its own compact
dump), single-line and fence-free, yet the normalizer collapses the double
space inside the string literal, so the output differs from the input. -/
theorem claim_C7_counterexample :
    dumpJson (Json.obj [(("a"), Json.str ("x  y"))]) =
      ("\x7b\"a\":\"x  y\"\x7d") ∧
    cleanJsonResponse ("\x7b\"a\":\"x  y\"\x7d") =
      .ok ("\x7b\"a\":\"x y\"\x7d") ∧
    ("\x7b\"a\":\"x y\"\x7d") ≠ ("\x7b\"a\":\"x  y\"\x7d") :=
  ⟨rfl, rfl, by decide⟩

/-! ### Plain characters, string literals, whitespace -/

theorem plainSp_facts {c : Char} (h : plainSpC c = true) :
    c ≠ qC ∧ c ≠ bsC ∧ c ≠ bqC ∧ ¬(c.toNat < 32) := by
  rcases Bool.or_eq_true _ _ |>.mp h with hsp | hpl
  · have hc : c = spC := by simpa using hsp
    subst hc
    refine ⟨by decide, by decide, by decide, by decide⟩
  · simp only [plainC, Bool.and_eq_true, decide_eq_true_eq] at hpl
    obtain ⟨⟨⟨⟨h1, h2⟩, h3⟩, h4⟩, h5⟩ := hpl
    exact ⟨h3, h4, h5, by omega⟩

theorem escChar_plainSp {c : Char} (h : plainSpC c = true) : escChar c = [c] := by
  obtain ⟨hq, hb, _, hlt⟩ := plainSp_facts h
  have hrange : 32 ≤ c.toNat ∧ c.toNat ≤ 126 := by
    rcases Bool.or_eq_true _ _ |>.mp h with hsp | hpl
    · have hc : c = spC := by simpa using hsp
      subst hc; exact ⟨by decide, by decide⟩
    · simp only [plainC, Bool.and_eq_true, decide_eq_true_eq] at hpl
      omega
  have hnl : c ≠ nlC := by intro hh; subst hh; revert hrange; decide
  have htb : c ≠ tabC := by intro hh; subst hh; revert hrange; decide
  have hcr : c ≠ crC := by intro hh; subst hh; revert hrange; decide
  have h8 : ¬(c.toNat = 8) := by omega
  have h12 : ¬(c.toNat = 12) := by omega
  have h127 : ¬(127 ≤ c.toNat) := by omega
  simp [escChar, hq, hb, hnl, htb, hcr, h8, h12, h127, hlt]

theorem foldr_escChar_plain (l : List Char) (h : ∀ c ∈ l, plainSpC c = true) :
    l.foldr (fun c acc => escChar c ++ acc) [qC] = l ++ [qC] := by
  induction l with
  | nil => rfl
  | cons c t ih =>
    simp only [List.foldr_cons, escChar_plainSp (h c (by simp)),
      ih (fun d hd => h d (by simp [hd])), List.cons_append, List.nil_append,
      List.singleton_append]

theorem dumpStrL_plain {s : String} (h : s.data.all plainSpC = true) :
    dumpStrL s = qC :: (s.data ++ [qC]) := by
  unfold dumpStrL
  rw [foldr_escChar_plain s.data (by simpa [List.all_eq_true] using h)]

theorem parseStrContentF_plain : ∀ (fuel : Nat) (l rest : List Char),
    (∀ c ∈ l, plainSpC c = true) → l.length < fuel →
    parseStrContentF fuel (l ++ qC :: rest) = some (l, rest) := by
  intro fuel
  induction fuel with
  | zero => intro l rest _ h; omega
  | succ f ih =>
    intro l rest hpl hlen
    cases l with
    | nil =>
      show parseStrContentF (f + 1) (qC :: rest) = some ([], rest)
      unfold parseStrContentF
      simp
    | cons c t =>
      obtain ⟨hq, hb, _, hlt⟩ := plainSp_facts (hpl c (by simp))
      show parseStrContentF (f + 1) (c :: (t ++ qC :: rest)) = some (c :: t, rest)
      unfold parseStrContentF
      dsimp only
      rw [if_neg hq, if_neg hb, if_neg (by simpa using hlt)]
      rw [ih t rest (fun d hd => hpl d (by simp [hd])) (by simp at hlen; omega)]
      rfl

theorem parseStrContent_plain (l rest : List Char)
    (hpl : ∀ c ∈ l, plainSpC c = true) :
    parseStrContent (l ++ qC :: rest) = some (l, rest) := by
  unfold parseStrContent
  exact parseStrContentF_plain _ l rest hpl (by simp; omega)

theorem skipWs_cons_nonws {c : Char} (r : List Char) (h : isJsonWs c = false) :
    skipWs (c :: r) = c :: r := by
  simp [skipWs, List.dropWhile, h]

/-! ### Decimal integer literals round-trip -/

theorem natDigitsF_mono : ∀ (n f g : Nat), n < f → n < g →
    natDigitsF f n = natDigitsF g n := by
  intro n
  induction n using Nat.strong_induction_on with
  | _ n ihn =>
    intro f g hf hg
    match f, g with
    | f' + 1, g' + 1 =>
      unfold natDigitsF
      by_cases h10 : n < 10
      · simp [h10]
      · simp only [h10, if_false]
        rw [ihn (n / 10) (by omega) f' g' (by omega) (by omega)]

theorem natDigits_unfold (n : Nat) :
    natDigits n = if n < 10 then [digitChar n]
      else natDigits (n / 10) ++ [digitChar (n % 10)] := by
  unfold natDigits
  by_cases h10 : n < 10
  · unfold natDigitsF
    simp [h10]
  · conv_lhs => unfold natDigitsF
    simp only [h10, if_false]
    rw [natDigitsF_mono (n / 10) n (n / 10 + 1) (by omega) (by omega)]

theorem isDigitC_digitChar (k : Nat) : isDigitC (digitChar k) = true := by
  unfold digitChar
  split <;> decide

theorem digitChar_val {k : Nat} (h : k < 10) : (digitChar k).toNat - 48 = k := by
  interval_cases k <;> decide

theorem natDigits_all_digit : ∀ (n : Nat), ∀ c ∈ natDigits n, isDigitC c = true := by
  intro n
  induction n using Nat.strong_induction_on with
  | _ n ihn =>
    intro c hc
    rw [natDigits_unfold] at hc
    by_cases h10 : n < 10
    · simp [h10] at hc
      subst hc
      exact isDigitC_digitChar n
    · simp only [h10, if_false, List.mem_append, List.mem_singleton] at hc
      rcases hc with hc | hc
      · exact ihn (n / 10) (by omega) c hc
      · subst hc
        exact isDigitC_digitChar _

theorem natDigits_ne_nil (n : Nat) : natDigits n ≠ [] := by
  rw [natDigits_unfold]
  by_cases h10 : n < 10 <;> simp [h10]

theorem natDigits_len_one {n : Nat} (h : n < 10) : (natDigits n).length = 1 := by
  rw [natDigits_unfold]
  simp [h]

theorem natDigits_len_ge_two {n : Nat} (h : 10 ≤ n) : 2 ≤ (natDigits n).length := by
  rw [natDigits_unfold]
  simp only [show ¬(n < 10) by omega, if_false, List.length_append,
    List.length_singleton]
  have := natDigits_ne_nil (n / 10)
  have : 1 ≤ (natDigits (n / 10)).length := by
    cases hh : natDigits (n / 10) with
    | nil => exact absurd hh (natDigits_ne_nil _)
    | cons a t => simp
  omega

theorem natDigits_head_ne_zero : ∀ (n : Nat), 1 ≤ n →
    ∀ c, (natDigits n).head? = some c → c ≠ '0' := by
  intro n
  induction n using Nat.strong_induction_on with
  | _ n ihn =>
    intro hn c hc
    rw [natDigits_unfold] at hc
    by_cases h10 : n < 10
    · simp [h10] at hc
      subst hc
      interval_cases n <;> decide
    · simp only [h10, if_false] at hc
      rw [List.head?_append_of_ne_nil] at hc
      · exact ihn (n / 10) (by omega) (by omega) c hc
      · exact natDigits_ne_nil _

theorem foldl_digits (step : Nat → Char → Nat)
    (hstep : ∀ a c, step a c = a * 10 + (c.toNat - 48)) :
    ∀ (n acc : Nat), (natDigits n).foldl step acc =
      acc * 10 ^ (natDigits n).length + n := by
  intro n
  induction n using Nat.strong_induction_on with
  | _ n ihn =>
    intro acc
    rw [natDigits_unfold]
    by_cases h10 : n < 10
    · simp [h10, hstep, digitChar_val h10]
    · simp only [h10, if_false, List.foldl_append, List.foldl_cons,
        List.foldl_nil, List.length_append, List.length_singleton]
      rw [ihn (n / 10) (by omega) acc, hstep, digitChar_val (by omega)]
      rw [pow_succ]
      have hmod := Nat.div_add_mod n 10
      ring_nf
      omega

theorem takeWhile_all_append (p : Char → Bool) (a b : List Char)
    (ha : ∀ c ∈ a, p c = true) (hb : ∀ c, b.head? = some c → p c = false) :
    (a ++ b).takeWhile p = a ∧ (a ++ b).dropWhile p = b := by
  induction a with
  | nil =>
    cases b with
    | nil => simp
    | cons x bs =>
      have := hb x (by simp)
      simp [List.takeWhile, List.dropWhile, this]
  | cons x xs ih =>
    have hx := ha x (by simp)
    obtain ⟨iht, ihd⟩ := ih (fun c hc => ha c (by simp [hc]))
    simp [List.takeWhile, List.dropWhile, hx, iht, ihd]

theorem parseNatPart_digits (n : Nat) (rest : List Char)
    (hrest : ∀ c, rest.head? = some c → isDigitC c = false) :
    parseNatPart (natDigits n ++ rest) = some (n, rest) := by
  obtain ⟨c0, l0, hshape⟩ : ∃ c0 l0, natDigits n = c0 :: l0 := by
    cases hh : natDigits n with
    | nil => exact absurd hh (natDigits_ne_nil n)
    | cons a t => exact ⟨a, t, rfl⟩
  have hd0 : isDigitC c0 = true := natDigits_all_digit n c0 (by rw [hshape]; simp)
  have hform : c0 :: (l0 ++ rest) = natDigits n ++ rest := by
    rw [hshape]; simp
  obtain ⟨htake, hdrop⟩ := takeWhile_all_append isDigitC (natDigits n) rest
    (natDigits_all_digit n) hrest
  unfold parseNatPart
  rw [hshape, List.cons_append]
  dsimp only
  rw [if_pos hd0, hform, htake, hdrop]
  have hnolead : (decide (1 < (natDigits n).length) &&
      decide ((natDigits n).head? = some '0')) = false := by
    by_cases h10 : n < 10
    · simp [natDigits_len_one h10]
    · have h2 := natDigits_head_ne_zero n (by omega)
      cases hh : (natDigits n).head? with
      | none => simp [hh]
      | some c =>
        have := h2 c hh
        simp [hh, this]
  rw [hnolead]
  simp only [Bool.false_eq_true, if_false]
  rw [foldl_digits _ (fun a c => rfl) n 0]
  simp

theorem isDigit_toNat {c : Char} (h : isDigitC c = true) :
    48 ≤ c.toNat ∧ c.toNat ≤ 57 := by
  simpa [isDigitC, Bool.and_eq_true, decide_eq_true_eq] using h

theorem parseNum_intDigits (i : Int) (rest : List Char)
    (hrest : ∀ c, rest.head? = some c → isDigitC c = false) :
    parseNum (intDigits i ++ rest) = some (.num i, rest) := by
  unfold intDigits
  by_cases hneg : i < 0
  · simp only [hneg, if_true]
    rw [List.cons_append]
    unfold parseNum
    dsimp only
    rw [if_pos rfl, parseNatPart_digits _ _ hrest]
    have hval : -(((-i).toNat : Nat) : Int) = i := by omega
    dsimp only
    rw [hval]
  · simp only [hneg, if_false]
    obtain ⟨c0, l0, hshape⟩ : ∃ c0 l0, natDigits i.toNat = c0 :: l0 := by
      cases hh : natDigits i.toNat with
      | nil => exact absurd hh (natDigits_ne_nil _)
      | cons a t => exact ⟨a, t, rfl⟩
    have hd0 : isDigitC c0 = true := natDigits_all_digit _ c0 (by rw [hshape]; simp)
    have hnm : c0 ≠ minusC := by
      intro hh
      subst hh
      have := isDigit_toNat hd0
      revert this
      decide
    have hform : c0 :: (l0 ++ rest) = natDigits i.toNat ++ rest := by
      rw [hshape]; simp
    unfold parseNum
    rw [hshape, List.cons_append]
    dsimp only
    rw [if_neg hnm, hform, parseNatPart_digits _ _ hrest]
    have hval : ((i.toNat : Nat) : Int) = i := by omega
    dsimp only
    rw [hval]

/-! ### Dump head shapes and duplicate-key resolution -/

theorem isJsonWs_false_of_digit {c : Char} (h : isDigitC c = true) :
    isJsonWs c = false := by
  have hb := isDigit_toNat h
  simp only [isJsonWs, Bool.or_eq_false_iff, decide_eq_false_iff_not]
  refine ⟨⟨⟨?_, ?_⟩, ?_⟩, ?_⟩ <;> intro hh <;> subst hh <;> revert hb <;> decide

theorem ne_of_digit_93_125 {c : Char} (h : isDigitC c = true) :
    c ≠ rkC ∧ c ≠ rbC := by
  have hb := isDigit_toNat h
  constructor <;> intro hh <;> subst hh <;> revert hb <;> decide

theorem jdump_head (j : Json) : ∃ c l, jdump j = c :: l ∧
    isJsonWs c = false ∧ c ≠ rkC ∧ c ≠ rbC := by
  cases j with
  | null =>
    refine ⟨'n', _, rfl, ?_, ?_, ?_⟩ <;> decide
  | bool b =>
    cases b with
    | true =>
      refine ⟨'t', _, rfl, ?_, ?_, ?_⟩ <;> decide
    | false =>
      refine ⟨'f', _, rfl, ?_, ?_, ?_⟩ <;> decide
  | num i =>
    show ∃ c l, intDigits i = c :: l ∧ _
    unfold intDigits
    by_cases hneg : i < 0
    · exact ⟨minusC, _, by rw [if_pos hneg], by decide, by decide, by decide⟩
    · rw [if_neg hneg]
      obtain ⟨c0, l0, hshape⟩ : ∃ c0 l0, natDigits i.toNat = c0 :: l0 := by
        cases hh : natDigits i.toNat with
        | nil => exact absurd hh (natDigits_ne_nil _)
        | cons a t => exact ⟨a, t, rfl⟩
      have hd0 : isDigitC c0 = true :=
        natDigits_all_digit _ c0 (by rw [hshape]; simp)
      exact ⟨c0, l0, hshape, isJsonWs_false_of_digit hd0,
        (ne_of_digit_93_125 hd0).1, (ne_of_digit_93_125 hd0).2⟩
  | str s => exact ⟨qC, _, rfl, by decide, by decide, by decide⟩
  | arr xs => exact ⟨lkC, _, rfl, by decide, by decide, by decide⟩
  | obj kvs => exact ⟨lbC, _, rfl, by decide, by decide, by decide⟩

theorem upsert_append (k : String) (v : Json) (acc : List (String × Json))
    (h : acc.any (fun kv => kv.1 = k) = false) :
    upsert k v acc = acc ++ [(k, v)] := by
  induction acc with
  | nil => rfl
  | cons kv t ih =>
    obtain ⟨k', v'⟩ := kv
    simp only [List.any_cons, Bool.or_eq_false_iff, decide_eq_false_iff_not] at h
    simp only [upsert, if_neg h.1, List.cons_append]
    rw [ih h.2]

theorem keys_not_in_front : ∀ (acc : List (String × Json)) (k : String)
    (v : Json) (t : List (String × Json)),
    keysNodupB (acc ++ (k, v) :: t) = true →
    acc.any (fun kv => kv.1 = k) = false := by
  intro acc
  induction acc with
  | nil => intro k v t _; rfl
  | cons kv0 acc' ih =>
    intro k v t h
    obtain ⟨k0, v0⟩ := kv0
    rw [List.cons_append] at h
    simp only [keysNodupB, Bool.and_eq_true] at h
    obtain ⟨hnot, hrest⟩ := h
    simp only [List.any_cons, Bool.or_eq_false_iff, decide_eq_false_iff_not]
    refine ⟨?_, ih k v t hrest⟩
    intro hkk
    subst hkk
    simp only [Bool.not_eq_true'] at hnot
    rw [List.any_eq_false] at hnot
    have hmem : (k0, v) ∈ acc' ++ (k0, v) :: t := by simp
    have hcontra := hnot (k0, v) hmem
    simp at hcontra

theorem keysNodupB_extract (acc : List (String × Json)) (k : String) (v : Json)
    (t : List (String × Json)) (h : keysNodupB (acc ++ (k, v) :: t) = true) :
    acc.any (fun kv => kv.1 = k) = false ∧
      keysNodupB ((acc ++ [(k, v)]) ++ t) = true :=
  ⟨keys_not_in_front acc k v t h,
    by rw [show (acc ++ [(k, v)]) ++ t = acc ++ (k, v) :: t by simp]; exact h⟩

theorem foldl_upsert_append : ∀ (l acc : List (String × Json)),
    keysNodupB (acc ++ l) = true →
    l.foldl (fun a kv => upsert kv.1 kv.2 a) acc = acc ++ l := by
  intro l
  induction l with
  | nil => intro acc _; simp
  | cons kv t ih =>
    intro acc h
    obtain ⟨k, v⟩ := kv
    obtain ⟨hnotin, hrest⟩ := keysNodupB_extract acc k v t h
    simp only [List.foldl_cons]
    rw [upsert_append k v acc hnotin, ih _ hrest]
    simp

theorem dedupPairs_self (l : List (String × Json)) (h : keysNodupB l = true) :
    dedupPairs l = l := by
  unfold dedupPairs
  exact foldl_upsert_append l [] (by simpa using h)

/-! ### Parser completeness on canonical dumps -/

theorem parseValue_null (g : Nat) (rest : List Char) :
    parseValue (g + 1) (jdump .null ++ rest) = some (.null, rest) := by
  rfl

theorem parseValue_true (g : Nat) (rest : List Char) :
    parseValue (g + 1) (jdump (.bool true) ++ rest) = some (.bool true, rest) := by
  rfl

theorem parseValue_false (g : Nat) (rest : List Char) :
    parseValue (g + 1) (jdump (.bool false) ++ rest) = some (.bool false, rest) := by
  rfl

theorem parseValue_arr_nil (g : Nat) (rest : List Char) :
    parseValue (g + 1) (jdump (.arr []) ++ rest) = some (.arr [], rest) := by
  rfl

theorem parseValue_obj_nil (g : Nat) (rest : List Char) :
    parseValue (g + 1) (jdump (.obj []) ++ rest) = some (.obj [], rest) := by
  rfl

theorem intDigits_head_skips (i : Int) :
    ∃ c0 l0, intDigits i = c0 :: l0 ∧ c0 ≠ lbC ∧ c0 ≠ lkC ∧ c0 ≠ qC ∧
      c0 ≠ 't' ∧ c0 ≠ 'f' ∧ c0 ≠ 'n' := by
  unfold intDigits
  by_cases hneg : i < 0
  · exact ⟨minusC, _, by rw [if_pos hneg], by decide, by decide, by decide,
      by decide, by decide, by decide⟩
  · rw [if_neg hneg]
    obtain ⟨c0, l0, hshape⟩ : ∃ c0 l0, natDigits i.toNat = c0 :: l0 := by
      cases hh : natDigits i.toNat with
      | nil => exact absurd hh (natDigits_ne_nil _)
      | cons a t => exact ⟨a, t, rfl⟩
    have hd0 := isDigit_toNat (natDigits_all_digit _ c0 (by rw [hshape]; simp))
    refine ⟨c0, l0, hshape, ?_, ?_, ?_, ?_, ?_, ?_⟩ <;>
      (intro hh; subst hh; revert hd0; decide)

theorem parseValue_num (g : Nat) (i : Int) (rest : List Char)
    (hrest : ∀ c, rest.head? = some c → isDigitC c = false) :
    parseValue (g + 1) (jdump (.num i) ++ rest) = some (.num i, rest) := by
  show parseValue (g + 1) (intDigits i ++ rest) = _
  obtain ⟨c0, l0, hshape, h1, h2, h3, h4, h5, h6⟩ := intDigits_head_skips i
  have hform : intDigits i ++ rest = c0 :: (l0 ++ rest) := by rw [hshape]; simp
  rw [hform]
  have hstep : parseValue (g + 1) (c0 :: (l0 ++ rest)) =
      (if c0 = lbC then
        (match skipWs (l0 ++ rest) with
         | [] => none
         | d :: cs3 =>
           if d = rbC then some (.obj [], cs3) else parseMembers g (d :: cs3) [])
      else if c0 = lkC then
        (match skipWs (l0 ++ rest) with
         | [] => none
         | d :: cs3 =>
           if d = rkC then some (.arr [], cs3) else parseElems g (d :: cs3) [])
      else if c0 = qC then
        (match parseStrContent (l0 ++ rest) with
         | some (s, r) => some (.str (String.mk s), r)
         | none => none)
      else if c0 = 't' then
        (match l0 ++ rest with
         | 'r' :: 'u' :: 'e' :: r => some (.bool true, r)
         | _ => none)
      else if c0 = 'f' then
        (match l0 ++ rest with
         | 'a' :: 'l' :: 's' :: 'e' :: r => some (.bool false, r)
         | _ => none)
      else if c0 = 'n' then
        (match l0 ++ rest with
         | 'u' :: 'l' :: 'l' :: r => some (.null, r)
         | _ => none)
      else parseNum (c0 :: (l0 ++ rest))) := rfl
  rw [hstep, if_neg h1, if_neg h2, if_neg h3, if_neg h4, if_neg h5, if_neg h6]
  rw [← hform, parseNum_intDigits i rest hrest]

theorem parseValue_str (g : Nat) (s : String) (rest : List Char)
    (hok : s.data.all plainSpC = true) :
    parseValue (g + 1) (jdump (.str s) ++ rest) = some (.str s, rest) := by
  show parseValue (g + 1) (dumpStrL s ++ rest) = _
  rw [dumpStrL_plain hok]
  rw [show (qC :: (s.data ++ [qC])) ++ rest = qC :: (s.data ++ qC :: rest) by simp]
  have hstep : parseValue (g + 1) (qC :: (s.data ++ qC :: rest)) =
      (match parseStrContent (s.data ++ qC :: rest) with
       | some (s', r) => some (Json.str (String.mk s'), r)
       | none => none) := rfl
  rw [hstep, parseStrContent_plain s.data rest (by simpa [List.all_eq_true] using hok)]

theorem parseValue_arr_cons (g : Nat) (x : Json) (xs : List Json)
    (rest : List Char) :
    parseValue (g + 1) (jdump (.arr (x :: xs)) ++ rest) =
      parseElems g ((jdump x ++ dumpElemsR xs) ++ rest) [] := by
  show parseValue (g + 1)
    ((lkC :: (jdump x ++ dumpElemsR xs)) ++ rest) = _
  rw [show (lkC :: (jdump x ++ dumpElemsR xs)) ++ rest =
    lkC :: ((jdump x ++ dumpElemsR xs) ++ rest) by simp]
  have hstep : parseValue (g + 1) (lkC :: ((jdump x ++ dumpElemsR xs) ++ rest)) =
      (match skipWs ((jdump x ++ dumpElemsR xs) ++ rest) with
       | [] => none
       | d :: cs3 =>
         if d = rkC then some (.arr [], cs3) else parseElems g (d :: cs3) []) := rfl
  rw [hstep]
  obtain ⟨c0, l0, hsh, hws, hrk, _⟩ := jdump_head x
  rw [show (jdump x ++ dumpElemsR xs) ++ rest =
    c0 :: ((l0 ++ dumpElemsR xs) ++ rest) by rw [hsh]; simp]
  rw [skipWs_cons_nonws _ hws]
  dsimp only
  rw [if_neg hrk]

theorem parseValue_obj_cons (g : Nat) (k : String) (v : Json)
    (t : List (String × Json)) (rest : List Char) :
    parseValue (g + 1) (jdump (.obj ((k, v) :: t)) ++ rest) =
      parseMembers g (dumpMembersF ((k, v) :: t) ++ rest) [] := by
  show parseValue (g + 1) ((lbC :: dumpMembersF ((k, v) :: t)) ++ rest) = _
  rw [show (lbC :: dumpMembersF ((k, v) :: t)) ++ rest =
    lbC :: (dumpMembersF ((k, v) :: t) ++ rest) by simp]
  have hstep : parseValue (g + 1) (lbC :: (dumpMembersF ((k, v) :: t) ++ rest)) =
      (match skipWs (dumpMembersF ((k, v) :: t) ++ rest) with
       | [] => none
       | d :: cs3 =>
         if d = rbC then some (.obj [], cs3) else parseMembers g (d :: cs3) []) := rfl
  rw [hstep]
  rw [show dumpMembersF ((k, v) :: t) ++ rest =
    qC :: ((k.data.foldr (fun c acc => escChar c ++ acc) [qC] ++
      (colonC :: (jdump v ++ dumpMembersR t))) ++ rest) from rfl]
  rw [skipWs_cons_nonws _ (by decide)]
  dsimp only
  rw [if_neg (by decide : ¬(qC = rbC))]

theorem dumpMembersR_head (t : List (String × Json)) :
    ∃ c0 l0, dumpMembersR t = c0 :: l0 ∧ isJsonWs c0 = false ∧
      isDigitC c0 = false := by
  cases t with
  | nil => exact ⟨rbC, [], rfl, by decide, by decide⟩
  | cons kv t2 =>
    obtain ⟨k2, v2⟩ := kv
    exact ⟨commaC, _, rfl, by decide, by decide⟩

theorem dumpElemsR_head (t : List Json) :
    ∃ c0 l0, dumpElemsR t = c0 :: l0 ∧ isJsonWs c0 = false ∧
      isDigitC c0 = false := by
  cases t with
  | nil => exact ⟨rkC, [], rfl, by decide, by decide⟩
  | cons x t2 => exact ⟨commaC, _, rfl, by decide, by decide⟩

theorem parseMembers_step (g : Nat) (k : String) (v : Json)
    (t : List (String × Json)) (acc : List (String × Json)) (rest : List Char)
    (hok : k.data.all plainSpC = true)
    (hv : parseValue g (jdump v ++ (dumpMembersR t ++ rest)) =
      some (v, dumpMembersR t ++ rest)) :
    parseMembers (g + 1) (dumpMembersF ((k, v) :: t) ++ rest) acc =
      (match t with
       | [] => some (.obj (dedupPairs (acc ++ [(k, v)])), rest)
       | t1 :: t2 =>
         parseMembers g (dumpMembersF (t1 :: t2) ++ rest) (acc ++ [(k, v)])) := by
  show parseMembers (g + 1)
    ((dumpStrL k ++ (colonC :: (jdump v ++ dumpMembersR t))) ++ rest) acc = _
  rw [dumpStrL_plain hok]
  rw [show (qC :: (k.data ++ [qC]) ++ (colonC :: (jdump v ++ dumpMembersR t))) ++ rest =
    qC :: (k.data ++ qC :: (colonC :: (jdump v ++ (dumpMembersR t ++ rest)))) by simp]
  have hstep : parseMembers (g + 1)
      (qC :: (k.data ++ qC :: (colonC :: (jdump v ++ (dumpMembersR t ++ rest))))) acc =
      (match parseStrContent
          (k.data ++ qC :: (colonC :: (jdump v ++ (dumpMembersR t ++ rest)))) with
       | some (kchars, r) =>
         (match skipWs r with
          | [] => none
          | d :: r3 =>
            if d = colonC then
              (match parseValue g (skipWs r3) with
               | some (v', r4) =>
                 (match skipWs r4 with
                  | [] => none
                  | e :: r6 =>
                    if e = commaC then
                      parseMembers g (skipWs r6) (acc ++ [(String.mk kchars, v')])
                    else if e = rbC then
                      some (.obj (dedupPairs (acc ++ [(String.mk kchars, v')])), r6)
                    else none)
               | none => none)
            else none)
       | none => none) := rfl
  rw [hstep, parseStrContent_plain _ _ (by simpa [List.all_eq_true] using hok)]
  dsimp only
  rw [show skipWs (colonC :: (jdump v ++ (dumpMembersR t ++ rest))) =
    colonC :: (jdump v ++ (dumpMembersR t ++ rest)) from skipWs_cons_nonws _ (by decide)]
  dsimp only
  rw [if_pos rfl]
  obtain ⟨c0, l0, hsh, hws, _⟩ := jdump_head v
  rw [show skipWs (jdump v ++ (dumpMembersR t ++ rest)) =
    jdump v ++ (dumpMembersR t ++ rest) by
      rw [show jdump v ++ (dumpMembersR t ++ rest) =
        c0 :: (l0 ++ (dumpMembersR t ++ rest)) by rw [hsh]; simp]
      exact skipWs_cons_nonws _ hws]
  rw [hv]
  dsimp only
  cases t with
  | nil =>
    show (match skipWs (rbC :: rest) with
      | [] => none
      | e :: r6 =>
        if e = commaC then parseMembers g (skipWs r6) (acc ++ [(String.mk k.data, v)])
        else if e = rbC then
          some (.obj (dedupPairs (acc ++ [(String.mk k.data, v)])), r6)
        else none) = some (.obj (dedupPairs (acc ++ [(k, v)])), rest)
    rw [skipWs_cons_nonws _ (by decide)]
    dsimp only
    rw [if_neg (by decide : ¬(rbC = commaC)), if_pos rfl]
  | cons t1 t2 =>
    show (match skipWs (commaC :: (dumpMembersF (t1 :: t2) ++ rest)) with
      | [] => none
      | e :: r6 =>
        if e = commaC then parseMembers g (skipWs r6) (acc ++ [(String.mk k.data, v)])
        else if e = rbC then
          some (.obj (dedupPairs (acc ++ [(String.mk k.data, v)])), r6)
        else none) = parseMembers g (dumpMembersF (t1 :: t2) ++ rest) (acc ++ [(k, v)])
    rw [skipWs_cons_nonws _ (by decide)]
    dsimp only
    rw [if_pos rfl]
    obtain ⟨k1, v1⟩ := t1
    rw [show dumpMembersF ((k1, v1) :: t2) ++ rest =
      qC :: ((k1.data.foldr (fun c acc => escChar c ++ acc) [qC] ++
        (colonC :: (jdump v1 ++ dumpMembersR t2))) ++ rest) from rfl]
    rw [skipWs_cons_nonws _ (by decide)]

theorem parseElems_step (g : Nat) (x : Json) (xs : List Json)
    (acc : List Json) (rest : List Char)
    (hv : parseValue g (jdump x ++ (dumpElemsR xs ++ rest)) =
      some (x, dumpElemsR xs ++ rest)) :
    parseElems (g + 1) ((jdump x ++ dumpElemsR xs) ++ rest) acc =
      (match xs with
       | [] => some (.arr (acc ++ [x]), rest)
       | x1 :: x2 => parseElems g (dumpElemsF (x1 :: x2) ++ rest) (acc ++ [x])) := by
  have hstep : parseElems (g + 1) ((jdump x ++ dumpElemsR xs) ++ rest) acc =
      (match parseValue g ((jdump x ++ dumpElemsR xs) ++ rest) with
       | some (v, r) =>
         (match skipWs r with
          | [] => none
          | e :: r2 =>
            if e = commaC then parseElems g (skipWs r2) (acc ++ [v])
            else if e = rkC then some (.arr (acc ++ [v]), r2)
            else none)
       | none => none) := rfl
  rw [hstep]
  rw [show (jdump x ++ dumpElemsR xs) ++ rest =
    jdump x ++ (dumpElemsR xs ++ rest) by simp]
  rw [hv]
  dsimp only
  cases xs with
  | nil =>
    show (match skipWs (rkC :: rest) with
      | [] => none
      | e :: r2 =>
        if e = commaC then parseElems g (skipWs r2) (acc ++ [x])
        else if e = rkC then some (.arr (acc ++ [x]), r2)
        else none) = some (.arr (acc ++ [x]), rest)
    rw [skipWs_cons_nonws _ (by decide)]
    dsimp only
    rw [if_neg (by decide : ¬(rkC = commaC)), if_pos rfl]
  | cons x1 x2 =>
    show (match skipWs (commaC :: (dumpElemsF (x1 :: x2) ++ rest)) with
      | [] => none
      | e :: r2 =>
        if e = commaC then parseElems g (skipWs r2) (acc ++ [x])
        else if e = rkC then some (.arr (acc ++ [x]), r2)
        else none) = parseElems g (dumpElemsF (x1 :: x2) ++ rest) (acc ++ [x])
    rw [skipWs_cons_nonws _ (by decide)]
    dsimp only
    rw [if_pos rfl]
    obtain ⟨c0, l0, hsh, hws, _⟩ := jdump_head x1
    rw [show dumpElemsF (x1 :: x2) ++ rest =
      c0 :: ((l0 ++ dumpElemsR x2) ++ rest) by
        show (jdump x1 ++ dumpElemsR x2) ++ rest = _
        rw [hsh]; simp]
    rw [skipWs_cons_nonws _ hws]

theorem jweight_pos (j : Json) : 1 ≤ jweight j := by
  cases j <;> simp [jweight]

theorem parse_dump_all : ∀ (fuel : Nat),
    (∀ (j : Json) (rest : List Char), plainJ j = true →
      (∀ c, rest.head? = some c → isDigitC c = false) →
      jweight j ≤ fuel →
      parseValue fuel (jdump j ++ rest) = some (j, rest)) ∧
    (∀ (kvs acc : List (String × Json)) (rest : List Char),
      plainM kvs = true → kvs ≠ [] → mweight kvs ≤ fuel →
      parseMembers fuel (dumpMembersF kvs ++ rest) acc =
        some (.obj (dedupPairs (acc ++ kvs)), rest)) ∧
    (∀ (xs : List Json) (acc : List Json) (rest : List Char),
      plainL xs = true → xs ≠ [] → lweight xs ≤ fuel →
      parseElems fuel (dumpElemsF xs ++ rest) acc =
        some (.arr (acc ++ xs), rest)) := by
  intro fuel
  induction fuel using Nat.strong_induction_on with
  | _ fuel ih =>
    refine ⟨?_, ?_, ?_⟩
    · intro j rest hpl hrest hw
      have hw1 : 1 ≤ jweight j := jweight_pos j
      obtain ⟨g, rfl⟩ : ∃ g, fuel = g + 1 := ⟨fuel - 1, by omega⟩
      cases j with
      | null => exact parseValue_null g rest
      | bool b =>
        cases b with
        | true => exact parseValue_true g rest
        | false => exact parseValue_false g rest
      | num i => exact parseValue_num g i rest hrest
      | str s =>
        have hok : s.data.all plainSpC = true := by
          simp only [plainJ, strOkB, Bool.and_eq_true] at hpl
          exact hpl.1
        exact parseValue_str g s rest hok
      | arr xs =>
        cases xs with
        | nil => exact parseValue_arr_nil g rest
        | cons x xs' =>
          rw [parseValue_arr_cons]
          have hplxs : plainL (x :: xs') = true := by
            simpa only [plainJ] using hpl
          have hwxs : lweight (x :: xs') ≤ g := by
            have : lweight (x :: xs') + 1 ≤ g + 1 := by
              simpa [jweight] using hw
            omega
          have hRE := (ih g (by omega)).2.2 (x :: xs') [] rest hplxs
            (by simp) hwxs
          simpa [dumpElemsF] using hRE
      | obj kvs =>
        cases kvs with
        | nil => exact parseValue_obj_nil g rest
        | cons kv t =>
          obtain ⟨k, v⟩ := kv
          rw [parseValue_obj_cons]
          have hsplit : plainM ((k, v) :: t) = true ∧
              keysNodupB ((k, v) :: t) = true := by
            simp only [plainJ] at hpl
            exact Bool.and_eq_true _ _ |>.mp hpl
          have hwm : mweight ((k, v) :: t) ≤ g := by
            have : mweight ((k, v) :: t) + 1 ≤ g + 1 := by
              simpa [jweight] using hw
            omega
          have hRM := (ih g (by omega)).2.1 ((k, v) :: t) [] rest hsplit.1
            (by simp) hwm
          rw [hRM, List.nil_append, dedupPairs_self _ hsplit.2]
    · intro kvs acc rest hpm hne hw
      cases kvs with
      | nil => exact absurd rfl hne
      | cons kv t =>
        obtain ⟨k, v⟩ := kv
        have hwc : max (jweight v) (mweight t) + 1 ≤ fuel := by
          simpa [mweight] using hw
        obtain ⟨g, rfl⟩ : ∃ g, fuel = g + 1 := ⟨fuel - 1, by omega⟩
        simp only [plainM] at hpm
        obtain ⟨hkv, hpt⟩ := Bool.and_eq_true _ _ |>.mp hpm
        obtain ⟨hks, hpv⟩ := Bool.and_eq_true _ _ |>.mp hkv
        have hokk : k.data.all plainSpC = true := by
          simp only [strOkB, Bool.and_eq_true] at hks
          exact hks.1
        obtain ⟨c0, l0, hsh, _, hdg⟩ := dumpMembersR_head t
        have hv := (ih g (by omega)).1 v (dumpMembersR t ++ rest) hpv
          (by intro c hc; rw [hsh] at hc; simp at hc; rwa [hc] at hdg)
          (by omega)
        rw [parseMembers_step g k v t acc rest hokk hv]
        cases t with
        | nil => rfl
        | cons t1 t2 =>
          dsimp only
          have hRM := (ih g (by omega)).2.1 (t1 :: t2) (acc ++ [(k, v)]) rest
            hpt (by simp) (by simp [mweight] at hw ⊢; omega)
          rw [hRM]
          congr 2
          simp
    · intro xs acc rest hpl hne hw
      cases xs with
      | nil => exact absurd rfl hne
      | cons x xs' =>
        have hwc : max (jweight x) (lweight xs') + 1 ≤ fuel := by
          simpa [lweight] using hw
        obtain ⟨g, rfl⟩ : ∃ g, fuel = g + 1 := ⟨fuel - 1, by omega⟩
        simp only [plainL] at hpl
        obtain ⟨hpx, hpxs⟩ := Bool.and_eq_true _ _ |>.mp hpl
        obtain ⟨c0, l0, hsh, _, hdg⟩ := dumpElemsR_head xs'
        have hv := (ih g (by omega)).1 x (dumpElemsR xs' ++ rest) hpx
          (by intro c hc; rw [hsh] at hc; simp at hc; rwa [hc] at hdg)
          (by omega)
        have hshape : dumpElemsF (x :: xs') ++ rest =
            (jdump x ++ dumpElemsR xs') ++ rest := rfl
        rw [hshape, parseElems_step g x xs' acc rest hv]
        cases xs' with
        | nil => rfl
        | cons x1 x2 =>
          dsimp only
          have hRE := (ih g (by omega)).2.2 (x1 :: x2) (acc ++ [x]) rest
            hpxs (by simp) (by simp [lweight] at hw ⊢; omega)
          rw [hRE]
          congr 2
          simp

theorem dumpStrL_len (k : String) : 2 ≤ (dumpStrL k).length := by
  unfold dumpStrL
  have : 1 ≤ (k.data.foldr (fun c acc => escChar c ++ acc) [qC]).length := by
    induction k.data with
    | nil => simp
    | cons c t ih => simp [List.foldr_cons]; omega
  simp
  omega

theorem jweight_le_len : ∀ (n : Nat),
    (∀ j, jweight j ≤ n → jweight j ≤ (jdump j).length + 1) ∧
    (∀ kvs, mweight kvs ≤ n → mweight kvs ≤ (dumpMembersF kvs).length + 1) ∧
    (∀ xs, lweight xs ≤ n → lweight xs ≤ (dumpElemsF xs).length + 1) := by
  intro n
  induction n using Nat.strong_induction_on with
  | _ n ih =>
    refine ⟨?_, ?_, ?_⟩
    · intro j hj
      cases j with
      | null => simp [jweight, jdump]
      | bool b => cases b <;> simp [jweight, jdump]
      | num i => simp [jweight]
      | str s => simp [jweight]
      | arr xs =>
        simp only [jweight] at hj ⊢
        show lweight xs + 1 ≤ (lkC :: dumpElemsF xs).length + 1
        have hn1 : 1 ≤ n := by omega
        have := (ih (n - 1) (by omega)).2.2 xs (by omega)
        simp only [List.length_cons]
        omega
      | obj kvs =>
        simp only [jweight] at hj ⊢
        show mweight kvs + 1 ≤ (lbC :: dumpMembersF kvs).length + 1
        have hn1 : 1 ≤ n := by omega
        have := (ih (n - 1) (by omega)).2.1 kvs (by omega)
        simp only [List.length_cons]
        omega
    · intro kvs hm
      cases kvs with
      | nil => simp [mweight]
      | cons kv t =>
        obtain ⟨k, v⟩ := kv
        simp only [mweight] at hm ⊢
        have hn1 : 1 ≤ n := by omega
        have hv := (ih (n - 1) (by omega)).1 v (by omega)
        have ht := (ih (n - 1) (by omega)).2.1 t (by omega)
        have hkl := dumpStrL_len k
        show max (jweight v) (mweight t) + 1 ≤
          (dumpStrL k ++ (colonC :: (jdump v ++ dumpMembersR t))).length + 1
        simp only [List.length_append, List.length_cons]
        cases t with
        | nil =>
          simp only [mweight] at ht ⊢
          show max (jweight v) 0 + 1 ≤ _
          simp only [show dumpMembersR ([] : List (String × Json)) = [rbC] from rfl,
            List.length_singleton]
          omega
        | cons t1 t2 =>
          obtain ⟨k1, v1⟩ := t1
          have hR : (dumpMembersR ((k1, v1) :: t2)).length =
              (dumpMembersF ((k1, v1) :: t2)).length + 1 := by
            show (commaC :: dumpMembersF ((k1, v1) :: t2)).length = _
            simp
          rw [hR]
          omega
    · intro xs hl
      cases xs with
      | nil => simp [lweight]
      | cons x t =>
        simp only [lweight] at hl ⊢
        have hn1 : 1 ≤ n := by omega
        have hv := (ih (n - 1) (by omega)).1 x (by omega)
        have ht := (ih (n - 1) (by omega)).2.2 t (by omega)
        show max (jweight x) (lweight t) + 1 ≤
          (jdump x ++ dumpElemsR t).length + 1
        simp only [List.length_append]
        cases t with
        | nil =>
          simp only [lweight] at ht ⊢
          show max (jweight x) 0 + 1 ≤ _
          simp only [show dumpElemsR ([] : List Json) = [rkC] from rfl,
            List.length_singleton]
          omega
        | cons x1 x2 =>
          have hR : (dumpElemsR (x1 :: x2)).length =
              (dumpElemsF (x1 :: x2)).length + 1 := by
            show (commaC :: dumpElemsF (x1 :: x2)).length = _
            simp
          rw [hR]
          omega

theorem parseJson_dump (j : Json) (h : plainJ j = true) :
    parseJson (dumpJson j) = some j := by
  unfold parseJson
  dsimp only
  have hdata : (dumpJson j).data = jdump j := rfl
  rw [hdata]
  obtain ⟨c0, l0, hsh, hws, _⟩ := jdump_head j
  have hskip : skipWs (jdump j) = jdump j := by
    rw [hsh]
    exact skipWs_cons_nonws _ hws
  rw [hskip]
  have hfuel : jweight j ≤ (jdump j).length + 1 :=
    (jweight_le_len (jweight j)).1 j (le_refl _)
  have hparse := (parse_dump_all ((jdump j).length + 1)).1 j [] h
    (by intro c hc; simp at hc) hfuel
  rw [List.append_nil] at hparse
  rw [hparse]
  simp [skipWs]

/-! ### Whitespace structure of canonical dumps -/

theorem pyIsSpace_toNat_le {c : Char} (h : pyIsSpace c = true) : c.toNat ≤ 32 := by
  simp only [pyIsSpace, Bool.or_eq_true, decide_eq_true_eq] at h
  rcases h with ((((h | h) | h) | h) | h) | h <;> subst h <;> decide

theorem plainSpC_charOk {c : Char} (h : plainSpC c = true) :
    c = spC ∨ (pyIsSpace c = false ∧ c ≠ bqC) := by
  rcases Bool.or_eq_true _ _ |>.mp h with hsp | hpl
  · exact Or.inl (by simpa using hsp)
  · right
    simp only [plainC, Bool.and_eq_true, decide_eq_true_eq] at hpl
    obtain ⟨⟨⟨⟨h1, _⟩, _⟩, _⟩, h5⟩ := hpl
    refine ⟨?_, h5⟩
    by_cases hws : pyIsSpace c = true
    · have := pyIsSpace_toNat_le hws
      omega
    · simpa using hws

theorem noDouble_cons {c : Char} {l : List Char} (hl : noDoubleSpace l = true)
    (hj : ∀ d, l.head? = some d → (pyIsSpace c && pyIsSpace d) = false) :
    noDoubleSpace (c :: l) = true := by
  cases l with
  | nil => rfl
  | cons d t =>
    have := hj d rfl
    simp only [noDoubleSpace, Bool.and_eq_true]
    refine ⟨?_, hl⟩
    rw [Bool.not_eq_true']
    exact this

theorem noDouble_tail {c : Char} {l : List Char}
    (h : noDoubleSpace (c :: l) = true) : noDoubleSpace l = true := by
  cases l with
  | nil => rfl
  | cons d t =>
    simp only [noDoubleSpace, Bool.and_eq_true] at h
    exact h.2

theorem noDouble_append {a b : List Char} (ha : noDoubleSpace a = true)
    (hb : noDoubleSpace b = true)
    (hj : ∀ x y, a.getLast? = some x → b.head? = some y →
      (pyIsSpace x && pyIsSpace y) = false) :
    noDoubleSpace (a ++ b) = true := by
  induction a with
  | nil => simpa using hb
  | cons c t ih =>
    cases t with
    | nil =>
      show noDoubleSpace (c :: b) = true
      exact noDouble_cons hb (fun d hd => hj c d rfl hd)
    | cons c2 t2 =>
      simp only [noDoubleSpace, Bool.and_eq_true] at ha
      have hrec := ih ha.2 (fun x y hx hy => hj x y (by
        rw [List.getLast?_cons_cons] at *
        exact hx) hy)
      show noDoubleSpace (c :: ((c2 :: t2) ++ b)) = true
      refine noDouble_cons hrec ?_
      intro d hd
      have hdc : c2 = d := by simpa using hd
      subst hdc
      rw [Bool.not_eq_true'] at ha
      exact ha.1

theorem goodRun_append {a b : List Char} (ha : goodRun a) (hb : goodRun b) :
    goodRun (a ++ b) := by
  obtain ⟨hane, hach, hand, hahd, hatl⟩ := ha
  obtain ⟨hbne, hbch, hbnd, hbhd, hbtl⟩ := hb
  refine ⟨by simp [hane], ?_, ?_, ?_, ?_⟩
  · intro c hc
    rcases List.mem_append.mp hc with h | h
    · exact hach c h
    · exact hbch c h
  · refine noDouble_append hand hbnd ?_
    intro x y hx hy
    have := hatl x hx
    simp [this]
  · intro c hc
    rw [List.head?_append_of_ne_nil _ hane] at hc
    exact hahd c hc
  · intro c hc
    rw [List.getLast?_append_of_ne_nil _ hbne] at hc
    exact hbtl c hc

theorem goodRun_single {c : Char} (hws : pyIsSpace c = false) (hbq : c ≠ bqC) :
    goodRun [c] := by
  refine ⟨by simp, ?_, rfl, ?_, ?_⟩
  · intro d hd
    simp at hd
    subst hd
    exact Or.inr ⟨hws, hbq⟩
  · intro d hd
    simp at hd
    subst hd
    exact hws
  · intro d hd
    simp at hd
    subst hd
    exact hws

theorem noDouble_of_all_nonws {s : List Char}
    (h : ∀ c ∈ s, pyIsSpace c = false) : noDoubleSpace s = true := by
  induction s with
  | nil => rfl
  | cons c t ih =>
    refine noDouble_cons (ih (fun d hd => h d (by simp [hd]))) ?_
    intro d _
    simp [h c (by simp)]

theorem goodRun_of_all_nonws {s : List Char} (hne : s ≠ [])
    (h : ∀ c ∈ s, pyIsSpace c = false ∧ c ≠ bqC) : goodRun s := by
  refine ⟨hne, fun c hc => Or.inr (h c hc), 
    noDouble_of_all_nonws (fun c hc => (h c hc).1), ?_, ?_⟩
  · intro c hc
    cases s with
    | nil => simp at hc
    | cons a t =>
      have : a = c := by simpa using hc
      subst this
      exact (h a (by simp)).1
  · intro c hc
    have hmem : c ∈ s := List.mem_of_mem_getLast? hc
    exact (h c hmem).1

theorem goodRun_dumpStr {s : String} (h : strOkB s = true) :
    goodRun (dumpStrL s) := by
  have hsp : (s.data.all plainSpC && noDoubleSpace s.data) = true := by
    simpa only [strOkB] using h
  obtain ⟨hall, hnd⟩ := Bool.and_eq_true _ _ |>.mp hsp
  rw [dumpStrL_plain hall]
  have hqws : pyIsSpace qC = false := by decide
  refine ⟨by simp, ?_, ?_, ?_, ?_⟩
  · intro c hc
    rcases List.mem_cons.mp hc with hc | hc
    · subst hc; exact Or.inr ⟨by decide, by decide⟩
    · rcases List.mem_append.mp hc with hc | hc
      · exact plainSpC_charOk (by
          rw [List.all_eq_true] at hall
          exact hall c hc)
      · have : c = qC := by simpa using hc
        subst this
        exact Or.inr ⟨by decide, by decide⟩
  · refine noDouble_cons ?_ ?_
    · refine noDouble_append hnd rfl ?_
      intro x y _ hy
      have hyq : qC = y := by simpa using hy
      subst hyq
      simp [hqws]
    · intro d _
      simp [hqws]
  · intro c hc
    have : qC = c := by simpa using hc
    subst this
    exact hqws
  · intro c hc
    rw [show qC :: (s.data ++ [qC]) = (qC :: s.data) ++ [qC] by simp] at hc
    rw [List.getLast?_append_of_ne_nil _ (by simp)] at hc
    have : qC = c := by simpa using hc
    subst this
    exact hqws

theorem goodRun_intDigits (i : Int) : goodRun (intDigits i) := by
  have hdig : ∀ n, ∀ c ∈ natDigits n, pyIsSpace c = false ∧ c ≠ bqC := by
    intro n c hc
    have hd := isDigit_toNat (natDigits_all_digit n c hc)
    constructor
    · by_cases hws : pyIsSpace c = true
      · have := pyIsSpace_toNat_le hws
        omega
      · simpa using hws
    · intro hbq
      subst hbq
      revert hd
      decide
  unfold intDigits
  by_cases hneg : i < 0
  · rw [if_pos hneg]
    refine goodRun_of_all_nonws (by simp) ?_
    intro c hc
    rcases List.mem_cons.mp hc with hc | hc
    · subst hc; exact ⟨by decide, by decide⟩
    · exact hdig _ c hc
  · rw [if_neg hneg]
    exact goodRun_of_all_nonws (natDigits_ne_nil _) (hdig _)

theorem goodRun_concrete (s : List Char) (hne : s ≠ [])
    (h : s.all (fun c => !pyIsSpace c && !(c == bqC)) = true) : goodRun s := by
  refine goodRun_of_all_nonws hne ?_
  intro c hc
  rw [List.all_eq_true] at h
  have hcc := h c hc
  simp only [Bool.and_eq_true, Bool.not_eq_true', beq_eq_false_iff_ne] at hcc
  exact hcc

theorem dump_goodRun : ∀ (n : Nat),
    (∀ j, plainJ j = true → jweight j ≤ n → goodRun (jdump j)) ∧
    (∀ kvs, plainM kvs = true → mweight kvs ≤ n → goodRun (dumpMembersF kvs)) ∧
    (∀ xs, plainL xs = true → lweight xs ≤ n → goodRun (dumpElemsF xs)) := by
  intro n
  induction n using Nat.strong_induction_on with
  | _ n ih =>
    have hsingle : ∀ (c : Char), pyIsSpace c = false → c ≠ bqC → goodRun [c] :=
      fun c h1 h2 => goodRun_single h1 h2
    refine ⟨?_, ?_, ?_⟩
    · intro j hpl hw
      cases j with
      | null => exact goodRun_concrete _ (by decide) (by decide)
      | bool b =>
        cases b with
        | true => exact goodRun_concrete _ (by decide) (by decide)
        | false => exact goodRun_concrete _ (by decide) (by decide)
      | num i => exact goodRun_intDigits i
      | str s =>
        exact goodRun_dumpStr (by simpa [plainJ] using hpl)
      | arr xs =>
        have hn1 : 1 ≤ n := le_trans (jweight_pos _) hw
        have hxs := (ih (n - 1) (by omega)).2.2 xs (by simpa only [plainJ] using hpl)
          (by simp only [jweight] at hw; omega)
        show goodRun (lkC :: dumpElemsF xs)
        rw [show lkC :: dumpElemsF xs = [lkC] ++ dumpElemsF xs from rfl]
        exact goodRun_append (hsingle lkC (by decide) (by decide)) hxs
      | obj kvs =>
        have hn1 : 1 ≤ n := le_trans (jweight_pos _) hw
        simp only [plainJ, Bool.and_eq_true] at hpl
        have hkvs := (ih (n - 1) (by omega)).2.1 kvs hpl.1
          (by simp only [jweight] at hw; omega)
        show goodRun (lbC :: dumpMembersF kvs)
        rw [show lbC :: dumpMembersF kvs = [lbC] ++ dumpMembersF kvs from rfl]
        exact goodRun_append (hsingle lbC (by decide) (by decide)) hkvs
    · intro kvs hpm hw
      cases kvs with
      | nil => exact goodRun_concrete _ (by decide) (by decide)
      | cons kv t =>
        obtain ⟨k, v⟩ := kv
        simp only [plainM, Bool.and_eq_true] at hpm
        obtain ⟨⟨hks, hpv⟩, hpt⟩ := hpm
        have hwv : jweight v ≤ n - 1 := by
          simp only [mweight] at hw
          omega
        have hwt : mweight t ≤ n - 1 := by
          simp only [mweight] at hw
          omega
        have hn1 : 1 ≤ n := by
          simp only [mweight] at hw
          omega
        have hv := (ih (n - 1) (by omega)).1 v hpv hwv
        have hR : goodRun (dumpMembersR t) := by
          cases t with
          | nil => exact hsingle rbC (by decide) (by decide)
          | cons t1 t2 =>
            obtain ⟨k1, v1⟩ := t1
            have hF := (ih (n - 1) (by omega)).2.1 ((k1, v1) :: t2) hpt hwt
            show goodRun (commaC :: dumpMembersF ((k1, v1) :: t2))
            rw [show commaC :: dumpMembersF ((k1, v1) :: t2) =
              [commaC] ++ dumpMembersF ((k1, v1) :: t2) from rfl]
            exact goodRun_append (hsingle commaC (by decide) (by decide)) hF
        show goodRun (dumpStrL k ++ (colonC :: (jdump v ++ dumpMembersR t)))
        rw [show colonC :: (jdump v ++ dumpMembersR t) =
          [colonC] ++ (jdump v ++ dumpMembersR t) from rfl]
        exact goodRun_append (goodRun_dumpStr hks)
          (goodRun_append (hsingle colonC (by decide) (by decide))
            (goodRun_append hv hR))
    · intro xs hplx hw
      cases xs with
      | nil => exact goodRun_concrete _ (by decide) (by decide)
      | cons x t =>
        simp only [plainL, Bool.and_eq_true] at hplx
        obtain ⟨hpx, hpt⟩ := hplx
        have hwv : jweight x ≤ n - 1 := by
          simp only [lweight] at hw
          omega
        have hwt : lweight t ≤ n - 1 := by
          simp only [lweight] at hw
          omega
        have hn1 : 1 ≤ n := by
          simp only [lweight] at hw
          omega
        have hv := (ih (n - 1) (by omega)).1 x hpx hwv
        have hR : goodRun (dumpElemsR t) := by
          cases t with
          | nil => exact hsingle rkC (by decide) (by decide)
          | cons x1 x2 =>
            have hF := (ih (n - 1) (by omega)).2.2 (x1 :: x2) hpt hwt
            show goodRun (commaC :: dumpElemsF (x1 :: x2))
            rw [show commaC :: dumpElemsF (x1 :: x2) =
              [commaC] ++ dumpElemsF (x1 :: x2) from rfl]
            exact goodRun_append (hsingle commaC (by decide) (by decide)) hF
        show goodRun (jdump x ++ dumpElemsR t)
        exact goodRun_append hv hR

/-! ### Collapse leaves canonical dumps unchanged -/

theorem dropWhile_eq_self_of_head {p : Char → Bool} (s : List Char)
    (h : ∀ c, s.head? = some c → p c = false) : s.dropWhile p = s := by
  cases s with
  | nil => rfl
  | cons c t => simp [List.dropWhile, h c rfl]

theorem pyStripL_eq_self (s : List Char)
    (hh : ∀ c, s.head? = some c → pyIsSpace c = false)
    (hl : ∀ c, s.getLast? = some c → pyIsSpace c = false) :
    pyStripL s = s := by
  unfold pyStripL dropTrailWs
  rw [dropWhile_eq_self_of_head _ hh]
  rw [dropWhile_eq_self_of_head _ (fun c hc => hl c (by rwa [← List.head?_reverse]))]
  simp

theorem hasFence_false_of_no_bq : ∀ (s : List Char),
    (∀ c ∈ s, c ≠ bqC) → hasFence s = false := by
  intro s h
  induction s with
  | nil => rfl
  | cons a t ih =>
    cases t with
    | nil => rfl
    | cons b t2 =>
      cases t2 with
      | nil => rfl
      | cons c2 t3 =>
        show hasFence (a :: b :: c2 :: t3) = false
        unfold hasFence
        rw [ih (fun d hd => h d (by simp [List.mem_cons] at hd ⊢; tauto))]
        simp [h a (by simp)]

theorem pySplitWsF_mono : ∀ (f : Nat) (s : List Char) (g : Nat),
    s.length < f → s.length < g → pySplitWsF f s = pySplitWsF g s := by
  intro f
  induction f with
  | zero => intro s g h _; omega
  | succ f ih =>
    intro s g hf hg
    obtain ⟨g', rfl⟩ : ∃ g', g = g' + 1 := ⟨g - 1, by omega⟩
    cases s with
    | nil => rfl
    | cons c cs =>
      show pySplitWsF (f + 1) (c :: cs) = pySplitWsF (g' + 1) (c :: cs)
      unfold pySplitWsF
      by_cases hws : pyIsSpace c = true
      · simp only [hws, if_true]
        exact ih cs g' (by simp at hf; omega) (by simp at hg; omega)
      · simp only [hws, Bool.false_eq_true, if_false]
        congr 1
        have hle : (cs.dropWhile (fun d => !pyIsSpace d)).length ≤ cs.length :=
          (List.dropWhile_suffix _).length_le
        exact ih _ g' (by simp at hf; omega) (by simp at hg; omega)

theorem pySplitWs_cons_ws {c : Char} (cs : List Char) (h : pyIsSpace c = true) :
    pySplitWs (c :: cs) = pySplitWs cs := by
  unfold pySplitWs
  show pySplitWsF ((c :: cs).length + 1) (c :: cs) = _
  rw [show (c :: cs).length + 1 = (cs.length + 1) + 1 by simp]
  conv_lhs => unfold pySplitWsF
  simp only [h, if_true]

theorem pySplitWs_cons_word {c : Char} (cs : List Char) (h : pyIsSpace c = false) :
    pySplitWs (c :: cs) = (c :: cs.takeWhile (fun d => !pyIsSpace d)) ::
      pySplitWs (cs.dropWhile (fun d => !pyIsSpace d)) := by
  unfold pySplitWs
  show pySplitWsF ((c :: cs).length + 1) (c :: cs) = _
  rw [show (c :: cs).length + 1 = (cs.length + 1) + 1 by simp]
  conv_lhs => unfold pySplitWsF
  simp only [h, Bool.false_eq_true, if_false]
  congr 1
  have hle : (cs.dropWhile (fun d => !pyIsSpace d)).length ≤ cs.length :=
    (List.dropWhile_suffix _).length_le
  exact pySplitWsF_mono _ _ _ (by omega) (by omega)

theorem intercalate_single (sep a : List Char) :
    List.intercalate sep [a] = a := by
  simp [List.intercalate]

theorem intercalate_cons2 (sep a b : List Char) (l : List (List Char)) :
    List.intercalate sep (a :: b :: l) = a ++ sep ++ List.intercalate sep (b :: l) := by
  simp [List.intercalate, List.intersperse]

theorem dropWhile_head_false {p : Char → Bool} : ∀ (l : List Char) (x : Char)
    (xs : List Char), l.dropWhile p = x :: xs → p x = false := by
  intro l
  induction l with
  | nil => intro x xs h; simp [List.dropWhile] at h
  | cons c t ih =>
    intro x xs h
    by_cases hc : p c = true
    · rw [List.dropWhile_cons_of_pos hc] at h
      exact ih x xs h
    · rw [List.dropWhile_cons_of_neg (by simpa using hc)] at h
      injection h with h1 h2
      subst h1
      simpa using hc

theorem noDouble_suffix : ∀ (a b : List Char),
    noDoubleSpace (a ++ b) = true → noDoubleSpace b = true := by
  intro a
  induction a with
  | nil => intro b h; simpa using h
  | cons c t ih =>
    intro b h
    exact ih b (noDouble_tail h)

theorem pySplitWs_nil : pySplitWs [] = [] := rfl

theorem collapseL_eq_self : ∀ (n : Nat) (s : List Char), s.length ≤ n →
    (∀ c ∈ s, c = spC ∨ pyIsSpace c = false) →
    noDoubleSpace s = true →
    (∀ c, s.head? = some c → pyIsSpace c = false) →
    (∀ c, s.getLast? = some c → pyIsSpace c = false) →
    collapseL s = s := by
  intro n
  induction n using Nat.strong_induction_on with
  | _ n ih =>
    intro s hlen hch hnd hh hl
    cases s with
    | nil => rfl
    | cons c cs =>
      have hcws : pyIsSpace c = false := hh c rfl
      unfold collapseL
      rw [pySplitWs_cons_word cs hcws]
      have hcs : cs.takeWhile (fun d => !pyIsSpace d) ++
          cs.dropWhile (fun d => !pyIsSpace d) = cs :=
        List.takeWhile_append_dropWhile ..
      cases hdd : cs.dropWhile (fun d => !pyIsSpace d) with
      | nil =>
        rw [pySplitWs_nil, intercalate_single]
        rw [hdd, List.append_nil] at hcs
        rw [hcs]
      | cons w d' =>
        have hw_ws : pyIsSpace w = true := by
          have := dropWhile_head_false cs w d' hdd
          simpa using this
        have hw_mem : w ∈ cs := by
          rw [← hcs, hdd]
          simp
        have hw_sp : w = spC := by
          rcases hch w (by simp [hw_mem]) with h | h
          · exact h
          · rw [h] at hw_ws
            cases hw_ws
        subst hw_sp
        have hs_shape : c :: cs =
            (c :: cs.takeWhile (fun d => !pyIsSpace d)) ++ spC :: d' := by
          rw [show (c :: cs.takeWhile (fun d => !pyIsSpace d)) ++ spC :: d' =
            c :: (cs.takeWhile (fun d => !pyIsSpace d) ++ spC :: d') by simp]
          rw [← hdd, hcs]
        have hd'ne : d' ≠ [] := by
          intro hnil
          subst hnil
          have hlast : (c :: cs).getLast? = some spC := by
            rw [hs_shape, List.getLast?_append_of_ne_nil _ (by simp)]
            rfl
          exact absurd (hl spC hlast) (by decide)
        obtain ⟨y, d'', rfl⟩ : ∃ y d'', d' = y :: d'' := by
          cases d' with
          | nil => exact absurd rfl hd'ne
          | cons a b => exact ⟨a, b, rfl⟩
        have hy_nws : pyIsSpace y = false := by
          have hsub : noDoubleSpace (spC :: y :: d'') = true := by
            have hnd2 : noDoubleSpace
                ((c :: cs.takeWhile (fun d => !pyIsSpace d)) ++ spC :: y :: d'') = true := by
              rw [← hs_shape]
              exact hnd
            exact noDouble_suffix _ _ hnd2
          simp only [noDoubleSpace, Bool.and_eq_true] at hsub
          have h1 := hsub.1
          rw [Bool.not_eq_true'] at h1
          simpa [show pyIsSpace spC = true from by decide] using h1
        rw [pySplitWs_cons_ws _ (by decide)]
        obtain ⟨z, rest, hzr⟩ : ∃ z rest, pySplitWs (y :: d'') = z :: rest := by
          rw [pySplitWs_cons_word _ hy_nws]
          exact ⟨_, _, rfl⟩
        rw [hzr, intercalate_cons2, ← hzr]
        have hclen : cs.length =
            (cs.takeWhile (fun d => !pyIsSpace d)).length + d''.length + 2 := by
          conv_lhs => rw [← hcs]
          rw [hdd]
          simp only [List.length_append, List.length_cons]
          omega
        have hlen' : cs.length + 1 ≤ n := by simpa using hlen
        have hlen2 : (y :: d'').length ≤ n - 1 := by
          simp only [List.length_cons]
          omega
        have hn1 : 1 ≤ n := by omega
        have hIH := ih (n - 1) (by omega) (y :: d'') hlen2
          (by
            intro c' hc'
            refine hch c' ?_
            rw [hs_shape]
            simp [hc'])
          (by
            have hnd2 : noDoubleSpace
                (((c :: cs.takeWhile (fun d => !pyIsSpace d)) ++ [spC]) ++ y :: d'') = true := by
              rw [show ((c :: cs.takeWhile (fun d => !pyIsSpace d)) ++ [spC]) ++ y :: d'' =
                (c :: cs.takeWhile (fun d => !pyIsSpace d)) ++ spC :: y :: d'' by simp]
              rw [← hs_shape]
              exact hnd
            exact noDouble_suffix _ _ hnd2)
          (by
            intro c' hc'
            have : y = c' := by simpa using hc'
            subst this
            exact hy_nws)
          (by
            intro c' hc'
            refine hl c' ?_
            rw [hs_shape, List.getLast?_append_of_ne_nil _ (by simp),
              List.getLast?_cons_cons]
            exact hc')
        unfold collapseL at hIH
        rw [hIH, hs_shape]
        simp

theorem cleanJson_dump_plain (j : Json) (h : plainJ j = true) :
    cleanJsonResponse (dumpJson j) = .ok (dumpJson j) := by
  have hgr : goodRun (jdump j) := (dump_goodRun (jweight j)).1 j h (le_refl _)
  obtain ⟨hne, hch, hnd, hhd, htl⟩ := hgr
  have hnobq : ∀ c ∈ jdump j, c ≠ bqC := by
    intro c hc
    rcases hch c hc with h1 | h1
    · subst h1
      decide
    · exact h1.2
  have hchw : ∀ c ∈ jdump j, c = spC ∨ pyIsSpace c = false := by
    intro c hc
    rcases hch c hc with h1 | h1
    · exact Or.inl h1
    · exact Or.inr h1.1
  unfold cleanJsonResponse
  dsimp only
  have hdata : (dumpJson j).data = jdump j := rfl
  rw [hdata]
  rw [pyStripL_eq_self _ hhd htl]
  rw [hasFence_false_of_no_bq _ hnobq]
  simp only [Bool.false_eq_true, if_false]
  unfold tailPhase
  dsimp only
  rw [pyStripL_eq_self _ hhd htl]
  rw [collapseL_eq_self (jdump j).length _ (le_refl _) hchw hnd hhd htl]
  rw [show String.mk (jdump j) = dumpJson j from rfl]
  rw [parseJson_dump j h]

/-- C7 (amended): the normalizer is the identity on canonical single-line
JSON strings whose string literals are free of quotes, backslashes,
backticks, control and non-ASCII characters, contain no two adjacent
whitespace characters, and whose objects have distinct keys — i.e. on the
compact dump of any `plainJ` value.  (A canonical string with a run of two
spaces inside a literal is a counterexample to the unrestricted claim: the
whitespace collapse rewrites the run.) -/
theorem claim_C7_idempotence (j : Json) (h : plainJ j = true) :
    cleanJsonResponse (dumpJson j) = .ok (dumpJson j) :=
  cleanJson_dump_plain j h

theorem claim_C7_witness :
    cleanJsonResponse (dumpJson (decisionObj ("get_weather") ("location")
        ("New York") ("Query asks about weather"))) =
      .ok (dumpJson (decisionObj ("get_weather") ("location")
        ("New York") ("Query asks about weather"))) :=
  claim_C7_idempotence
    (decisionObj ("get_weather") ("location") ("New York")
      ("Query asks about weather")) rfl

/-! ### C6: fenced round-trip -/

theorem skipWs_cons_ws {c : Char} (r : List Char) (h : isJsonWs c = true) :
    skipWs (c :: r) = skipWs r := by
  simp [skipWs, List.dropWhile, h]

theorem isPrefixOf_self_append (l r : List Char) :
    l.isPrefixOf (l ++ r) = true := by
  induction l with
  | nil => simp
  | cons c t ih => simpa [List.isPrefixOf] using ih

theorem plainC_to_plainSp {c : Char} (h : plainC c = true) : plainSpC c = true := by
  simp [plainSpC, h]

theorem plainC_nonws {c : Char} (h : plainC c = true) : pyIsSpace c = false := by
  rcases plainSpC_charOk (plainC_to_plainSp h) with h1 | h1
  · subst h1
    revert h
    decide
  · exact h1.1

theorem plainC_ne_bq {c : Char} (h : plainC c = true) : c ≠ bqC :=
  (plainSp_facts (plainC_to_plainSp h)).2.2.1

theorem strOkB_of_plainC {s : String} (h : s.data.all plainC = true) :
    strOkB s = true := by
  rw [List.all_eq_true] at h
  simp only [strOkB, Bool.and_eq_true]
  exact ⟨by rw [List.all_eq_true]; exact fun c hc => plainC_to_plainSp (h c hc),
    noDouble_of_all_nonws (fun c hc => plainC_nonws (h c hc))⟩

theorem splitWs_word_ws (w : List Char) (y : Char) (rest : List Char)
    (hw : w ≠ []) (hnw : ∀ c ∈ w, pyIsSpace c = false)
    (hy : pyIsSpace y = true) :
    pySplitWs (w ++ y :: rest) = w :: pySplitWs rest := by
  obtain ⟨c, w', rfl⟩ : ∃ c w', w = c :: w' := by
    cases w with
    | nil => exact absurd rfl hw
    | cons a b => exact ⟨a, b, rfl⟩
  rw [show (c :: w') ++ y :: rest = c :: (w' ++ y :: rest) by simp]
  rw [pySplitWs_cons_word _ (hnw c (by simp))]
  obtain ⟨ht, hd⟩ := takeWhile_all_append (fun d => !pyIsSpace d) w' (y :: rest)
    (fun c hc => by simp [hnw c (by simp [hc])])
    (fun c hc => by
      have : y = c := by simpa using hc
      subst this
      simp [hy])
  rw [ht, hd, pySplitWs_cons_ws _ (by
    simp only [isJsonWs, pyIsSpace, Bool.or_eq_true] at hy ⊢
    tauto)]

theorem splitWs_word_only (w : List Char) (hw : w ≠ [])
    (hnw : ∀ c ∈ w, pyIsSpace c = false) :
    pySplitWs w = [w] := by
  obtain ⟨c, w', rfl⟩ : ∃ c w', w = c :: w' := by
    cases w with
    | nil => exact absurd rfl hw
    | cons a b => exact ⟨a, b, rfl⟩
  rw [pySplitWs_cons_word _ (hnw c (by simp))]
  obtain ⟨ht, hd⟩ := takeWhile_all_append (fun d => !pyIsSpace d) w' []
    (fun d hd => by simp [hnw d (by simp [hd])])
    (fun d hd => by simp at hd)
  rw [List.append_nil] at ht hd
  rw [ht, hd, pySplitWs_nil]

theorem plainJ_decisionObj (f a x r : String)
    (hf : f.data.all plainC = true) (ha : a.data.all plainC = true)
    (hx : x.data.all plainC = true) (hr : r.data.all plainC = true) :
    plainJ (decisionObj f a x r) = true := by
  simp [decisionObj, plainJ, plainM, keysNodupB, strOkB_of_plainC hf,
    strOkB_of_plainC ha, strOkB_of_plainC hx, strOkB_of_plainC hr,
    (by decide : strOkB ("function") = true),
    (by decide : strOkB ("parameters") = true),
    (by decide : strOkB ("reasoning") = true)]

theorem parseMembers_gap (g : Nat) (kc : List Char)
    (hkc : ∀ c ∈ kc, plainSpC c = true) (V : List Char) (v : Json)
    (rest2 : List Char) (acc : List (String × Json))
    (hVh : ∀ c, V.head? = some c → isJsonWs c = false)
    (hv : parseValue g V = some (v, rest2)) :
    parseMembers (g + 1) (qC :: (kc ++ qC :: colonC :: V)) acc =
      (match skipWs rest2 with
       | [] => none
       | e :: r6 =>
         if e = commaC then
           parseMembers g (skipWs r6) (acc ++ [(String.mk kc, v)])
         else if e = rbC then
           some (.obj (dedupPairs (acc ++ [(String.mk kc, v)])), r6)
         else none) := by
  have hstep : parseMembers (g + 1) (qC :: (kc ++ qC :: colonC :: V)) acc =
      (match parseStrContent (kc ++ qC :: colonC :: V) with
       | some (kchars, r) =>
         (match skipWs r with
          | [] => none
          | d :: r3 =>
            if d = colonC then
              (match parseValue g (skipWs r3) with
               | some (v', r4) =>
                 (match skipWs r4 with
                  | [] => none
                  | e :: r6 =>
                    if e = commaC then
                      parseMembers g (skipWs r6) (acc ++ [(String.mk kchars, v')])
                    else if e = rbC then
                      some (.obj (dedupPairs (acc ++ [(String.mk kchars, v')])), r6)
                    else none)
               | none => none)
            else none)
       | none => none) := rfl
  rw [hstep, parseStrContent_plain _ _ hkc]
  dsimp only
  rw [skipWs_cons_nonws _ (by decide)]
  dsimp only
  rw [if_pos rfl]
  rw [show skipWs V = V from dropWhile_eq_self_of_head V hVh, hv]

theorem all_plainSpC_of_plainC {s : String} (h : s.data.all plainC = true) :
    s.data.all plainSpC = true := by
  rw [List.all_eq_true] at h ⊢
  exact fun c hc => plainC_to_plainSp (h c hc)

theorem fencedDecision_decomp (f a x r : String) :
    (fencedDecision f a x r).data =
      [] ++ fenceL ++ fencedMid f a x r ++ fenceL ++ [] := by
  unfold fencedDecision fencedMid
  repeat rw [String.data_append]
  rw [show (("```json\n\x7b\"function\":\"")).data =
    fenceL ++ (("json\n\x7b\"function\":\"")).data from rfl]
  rw [show (("\"\x7d\n```")).data = (("\"\x7d\n")).data ++ fenceL from rfl]
  simp

theorem fencedMid_no_bq (f a x r : String)
    (hf : f.data.all plainC = true) (ha : a.data.all plainC = true)
    (hx : x.data.all plainC = true) (hr : r.data.all plainC = true) :
    ∀ c ∈ fencedMid f a x r, c ≠ bqC := by
  intro c hc
  simp only [fencedMid, List.mem_append] at hc
  rcases hc with ((((((((hc | hc) | hc) | hc) | hc) | hc) | hc) | hc) | hc)
  · exact (by decide :
      ∀ d ∈ (("json\n\x7b\"function\":\"")).data, d ≠ bqC) c hc
  · exact plainC_ne_bq (List.all_eq_true.mp hf c hc)
  · exact (by decide :
      ∀ d ∈ (("\",\n\"parameters\":\x7b\"")).data, d ≠ bqC) c hc
  · exact plainC_ne_bq (List.all_eq_true.mp ha c hc)
  · exact (by decide : ∀ d ∈ (("\":\"")).data, d ≠ bqC) c hc
  · exact plainC_ne_bq (List.all_eq_true.mp hx c hc)
  · exact (by decide :
      ∀ d ∈ (("\"\x7d,\n\"reasoning\":\"")).data, d ≠ bqC) c hc
  · exact plainC_ne_bq (List.all_eq_true.mp hr c hc)
  · exact (by decide : ∀ d ∈ (("\"\x7d\n")).data, d ≠ bqC) c hc

theorem stripJsonTag_fencedMid (f a x r : String) :
    stripJsonTag (fencedMid f a x r) =
      nlC :: (fencedBody f a x r ++ [nlC]) := by
  have hshape : fencedMid f a x r =
      jsonTagL ++ (nlC :: (fencedBody f a x r ++ [nlC])) := by
    unfold fencedMid fencedBody
    rw [show (("json\n\x7b\"function\":\"")).data =
      jsonTagL ++ nlC :: (("\x7b\"function\":\"")).data from rfl]
    rw [show (("\"\x7d\n")).data = (("\"\x7d")).data ++ [nlC] from rfl]
    simp
  rw [hshape]
  unfold stripJsonTag
  rw [isPrefixOf_self_append, if_pos rfl]
  rw [show (4 : Nat) = jsonTagL.length from rfl]
  exact List.drop_left _ _

theorem pyStripL_nl_wrap (B : List Char) (c0 cl : Char)
    (h0 : ∃ t, B = c0 :: t) (hl : ∃ i, B = i ++ [cl])
    (hc0 : pyIsSpace c0 = false) (hcl : pyIsSpace cl = false) :
    pyStripL (nlC :: (B ++ [nlC])) = B := by
  obtain ⟨t, ht⟩ := h0
  obtain ⟨i, hi⟩ := hl
  unfold pyStripL
  rw [List.dropWhile_cons, if_pos (by decide : pyIsSpace nlC = true)]
  rw [ht, List.cons_append, List.dropWhile_cons,
    if_neg (by simp [hc0])]
  rw [← List.cons_append, ← ht, hi]
  rw [show (i ++ [cl]) ++ [nlC] = i ++ cl :: [nlC] by simp]
  rw [dropTrailWs_append _ _ _ hcl]
  rw [show dropTrailWs [nlC] = [] from by decide]

theorem fencedBody_head (f a x r : String) :
    ∃ t, fencedBody f a x r = lbC :: t := by
  refine ⟨(("\"function\":\"")).data ++ f.data ++
    (("\",\n\"parameters\":\x7b\"")).data ++ a.data ++ (("\":\"")).data ++
    x.data ++ (("\"\x7d,\n\"reasoning\":\"")).data ++ r.data ++
    (("\"\x7d")).data, ?_⟩
  unfold fencedBody
  rw [show (("\x7b\"function\":\"")).data =
    lbC :: (("\"function\":\"")).data from rfl]
  simp

theorem fencedBody_last (f a x r : String) :
    ∃ i, fencedBody f a x r = i ++ [rbC] := by
  refine ⟨(("\x7b\"function\":\"")).data ++ f.data ++
    (("\",\n\"parameters\":\x7b\"")).data ++ a.data ++ (("\":\"")).data ++
    x.data ++ (("\"\x7d,\n\"reasoning\":\"")).data ++ r.data ++ [qC], ?_⟩
  unfold fencedBody
  rw [show (("\"\x7d")).data = [qC] ++ [rbC] from rfl]
  simp

theorem pyStripL_fencedTail (f a x r : String) :
    pyStripL (nlC :: (fencedBody f a x r ++ [nlC])) = fencedBody f a x r :=
  pyStripL_nl_wrap _ lbC rbC (fencedBody_head f a x r)
    (fencedBody_last f a x r) (by decide) (by decide)

theorem fencedBody_words (f a x r : String) :
    fencedBody f a x r =
      decWord1 f ++ nlC :: (decWord2 a x ++ nlC :: decWord3 r) := by
  unfold fencedBody decWord1 decWord2 decWord3
  rw [show (("\",\n\"parameters\":\x7b\"")).data =
    [qC, commaC] ++ nlC :: (("\"parameters\":\x7b\"")).data from rfl]
  rw [show (("\"\x7d,\n\"reasoning\":\"")).data =
    [qC, rbC, commaC] ++ nlC :: (("\"reasoning\":\"")).data from rfl]
  rw [show (("\"\x7d")).data = [qC, rbC] from rfl]
  simp

theorem spacedDecision_words (f a x r : String) :
    spacedDecision f a x r =
      decWord1 f ++ spC :: (decWord2 a x ++ spC :: decWord3 r) := by
  unfold spacedDecision decWord1 decWord2 decWord3
  rw [show (("\", \"parameters\":\x7b\"")).data =
    [qC, commaC] ++ spC :: (("\"parameters\":\x7b\"")).data from rfl]
  rw [show (("\"\x7d, \"reasoning\":\"")).data =
    [qC, rbC, commaC] ++ spC :: (("\"reasoning\":\"")).data from rfl]
  rw [show (("\"\x7d")).data = [qC, rbC] from rfl]
  simp

theorem decWord1_ne (f : String) : decWord1 f ≠ [] := by
  unfold decWord1
  rw [show (("\x7b\"function\":\"")).data =
    lbC :: (("\"function\":\"")).data from rfl]
  simp

theorem decWord2_ne (a x : String) : decWord2 a x ≠ [] := by
  unfold decWord2
  rw [show (("\"parameters\":\x7b\"")).data =
    qC :: (("parameters\":\x7b\"")).data from rfl]
  simp

theorem decWord3_ne (r : String) : decWord3 r ≠ [] := by
  unfold decWord3
  rw [show (("\"reasoning\":\"")).data =
    qC :: (("reasoning\":\"")).data from rfl]
  simp

theorem decWord1_nonws (f : String) (hf : f.data.all plainC = true) :
    ∀ c ∈ decWord1 f, pyIsSpace c = false := by
  intro c hc
  simp only [decWord1, List.mem_append] at hc
  rcases hc with (hc | hc) | hc
  · exact (by decide :
      ∀ d ∈ (("\x7b\"function\":\"")).data, pyIsSpace d = false) c hc
  · exact plainC_nonws (List.all_eq_true.mp hf c hc)
  · exact (by decide : ∀ d ∈ [qC, commaC], pyIsSpace d = false) c hc

theorem decWord2_nonws (a x : String) (ha : a.data.all plainC = true)
    (hx : x.data.all plainC = true) :
    ∀ c ∈ decWord2 a x, pyIsSpace c = false := by
  intro c hc
  simp only [decWord2, List.mem_append] at hc
  rcases hc with (((hc | hc) | hc) | hc) | hc
  · exact (by decide :
      ∀ d ∈ (("\"parameters\":\x7b\"")).data, pyIsSpace d = false) c hc
  · exact plainC_nonws (List.all_eq_true.mp ha c hc)
  · exact (by decide : ∀ d ∈ (("\":\"")).data, pyIsSpace d = false) c hc
  · exact plainC_nonws (List.all_eq_true.mp hx c hc)
  · exact (by decide : ∀ d ∈ [qC, rbC, commaC], pyIsSpace d = false) c hc

theorem decWord3_nonws (r : String) (hr : r.data.all plainC = true) :
    ∀ c ∈ decWord3 r, pyIsSpace c = false := by
  intro c hc
  simp only [decWord3, List.mem_append] at hc
  rcases hc with (hc | hc) | hc
  · exact (by decide :
      ∀ d ∈ (("\"reasoning\":\"")).data, pyIsSpace d = false) c hc
  · exact plainC_nonws (List.all_eq_true.mp hr c hc)
  · exact (by decide : ∀ d ∈ [qC, rbC], pyIsSpace d = false) c hc

theorem collapseL_fencedBody (f a x r : String)
    (hf : f.data.all plainC = true) (ha : a.data.all plainC = true)
    (hx : x.data.all plainC = true) (hr : r.data.all plainC = true) :
    collapseL (fencedBody f a x r) = spacedDecision f a x r := by
  unfold collapseL
  rw [fencedBody_words]
  rw [splitWs_word_ws _ _ _ (decWord1_ne f) (decWord1_nonws f hf) (by decide)]
  rw [splitWs_word_ws _ _ _ (decWord2_ne a x) (decWord2_nonws a x ha hx)
    (by decide)]
  rw [splitWs_word_only _ (decWord3_ne r) (decWord3_nonws r hr)]
  rw [intercalate_cons2, intercalate_cons2, intercalate_single]
  rw [spacedDecision_words]
  simp

theorem parseJson_spacedDecision (f a x r : String)
    (hf : f.data.all plainC = true) (ha : a.data.all plainC = true)
    (hx : x.data.all plainC = true) (hr : r.data.all plainC = true) :
    parseJson (String.mk (spacedDecision f a x r)) =
      some (decisionObj f a x r) := by
  have hfsp : f.data.all plainSpC = true := all_plainSpC_of_plainC hf
  have hasp : a.data.all plainSpC = true := all_plainSpC_of_plainC ha
  have hxsp : x.data.all plainSpC = true := all_plainSpC_of_plainC hx
  have hrsp : r.data.all plainSpC = true := all_plainSpC_of_plainC hr
  have hjf : jdump (Json.str f) = qC :: (f.data ++ [qC]) := dumpStrL_plain hfsp
  have hjr : jdump (Json.str r) = qC :: (r.data ++ [qC]) := dumpStrL_plain hrsp
  have hjo : jdump (Json.obj [(a, Json.str x)]) =
      [lbC, qC] ++ a.data ++ ([qC, colonC, qC] ++ (x.data ++ [qC, rbC])) := by
    simp [jdump, dumpMembersF, dumpMembersR, dumpStrL_plain hasp,
      dumpStrL_plain hxsp]
  have hexp : spacedDecision f a x r =
      lbC :: (qC :: ((("function")).data ++ qC :: colonC ::
        (jdump (Json.str f) ++ commaC :: spC ::
        (qC :: ((("parameters")).data ++ qC :: colonC ::
        (jdump (Json.obj [(a, Json.str x)]) ++ commaC :: spC ::
        (qC :: ((("reasoning")).data ++ qC :: colonC ::
        (jdump (Json.str r) ++ [rbC]))))))))) := by
    rw [hjf, hjo, hjr]
    unfold spacedDecision
    rw [show (("\x7b\"function\":\"")).data =
      [lbC, qC] ++ ((("function")).data ++ [qC, colonC, qC]) from rfl]
    rw [show (("\", \"parameters\":\x7b\"")).data =
      [qC, commaC, spC, qC] ++ ((("parameters")).data ++ [qC, colonC, lbC, qC])
      from rfl]
    rw [show (("\":\"")).data = [qC, colonC, qC] from rfl]
    rw [show (("\"\x7d, \"reasoning\":\"")).data =
      [qC, rbC, commaC, spC, qC] ++ ((("reasoning")).data ++ [qC, colonC, qC])
      from rfl]
    rw [show (("\"\x7d")).data = [qC, rbC] from rfl]
    simp
  have hm1 : ∀ (g : Nat) (R : List Char) (acc : List (String × Json)),
      parseMembers (g + 1 + 1) (qC :: ((("function")).data ++ qC :: colonC ::
        (jdump (Json.str f) ++ commaC :: spC :: (qC :: R)))) acc =
      parseMembers (g + 1) (qC :: R)
        (acc ++ [((("function")), Json.str f)]) := by
    intro g R acc
    have hh1 : ∀ c, (jdump (Json.str f) ++
        commaC :: spC :: (qC :: R)).head? = some c → isJsonWs c = false := by
      obtain ⟨c0, l0, he, hws, _, _⟩ := jdump_head (Json.str f)
      rw [he]
      intro c hc
      simp only [List.cons_append, List.head?_cons, Option.some.injEq] at hc
      subst hc
      exact hws
    rw [parseMembers_gap (g + 1) ((("function")).data) (by decide) _ _ _ acc
      hh1 (parseValue_str g f (commaC :: spC :: (qC :: R)) hfsp)]
    rw [skipWs_cons_nonws _ (by decide)]
    dsimp only
    rw [if_pos rfl]
    rw [skipWs_cons_ws _ (by decide), skipWs_cons_nonws _ (by decide)]
  have hm2 : ∀ (g : Nat), 3 ≤ g → ∀ (R : List Char)
      (acc : List (String × Json)),
      parseMembers (g + 1) (qC :: ((("parameters")).data ++ qC :: colonC ::
        (jdump (Json.obj [(a, Json.str x)]) ++ commaC :: spC ::
          (qC :: R)))) acc =
      parseMembers g (qC :: R)
        (acc ++ [((("parameters")), Json.obj [(a, Json.str x)])]) := by
    intro g hg R acc
    have hplainO : plainJ (Json.obj [(a, Json.str x)]) = true := by
      simp [plainJ, plainM, keysNodupB, strOkB_of_plainC ha,
        strOkB_of_plainC hx]
    have hh2 : ∀ c, (jdump (Json.obj [(a, Json.str x)]) ++
        commaC :: spC :: (qC :: R)).head? = some c → isJsonWs c = false := by
      obtain ⟨c0, l0, he, hws, _, _⟩ := jdump_head (Json.obj [(a, Json.str x)])
      rw [he]
      intro c hc
      simp only [List.cons_append, List.head?_cons, Option.some.injEq] at hc
      subst hc
      exact hws
    have hv2 : parseValue g (jdump (Json.obj [(a, Json.str x)]) ++
        commaC :: spC :: (qC :: R)) =
        some (Json.obj [(a, Json.str x)], commaC :: spC :: (qC :: R)) :=
      (parse_dump_all g).1 _ _ hplainO
        (by intro c hc
            simp only [List.head?_cons, Option.some.injEq] at hc
            subst hc
            decide)
        (by simp [jweight, mweight]; omega)
    rw [parseMembers_gap g ((("parameters")).data) (by decide) _ _ _ acc
      hh2 hv2]
    rw [skipWs_cons_nonws _ (by decide)]
    dsimp only
    rw [if_pos rfl]
    rw [skipWs_cons_ws _ (by decide), skipWs_cons_nonws _ (by decide)]
  have hm3 : ∀ (g : Nat) (acc : List (String × Json)),
      parseMembers (g + 1 + 1) (qC :: ((("reasoning")).data ++ qC :: colonC ::
        (jdump (Json.str r) ++ [rbC]))) acc =
      some (Json.obj (dedupPairs (acc ++ [((("reasoning")), Json.str r)])),
        []) := by
    intro g acc
    have hh3 : ∀ c, (jdump (Json.str r) ++ [rbC]).head? = some c →
        isJsonWs c = false := by
      obtain ⟨c0, l0, he, hws, _, _⟩ := jdump_head (Json.str r)
      rw [he]
      intro c hc
      simp only [List.cons_append, List.head?_cons, Option.some.injEq] at hc
      subst hc
      exact hws
    rw [parseMembers_gap (g + 1) ((("reasoning")).data) (by decide) _ _ _ acc
      hh3 (parseValue_str g r [rbC] hrsp)]
    rw [skipWs_cons_nonws _ (by decide)]
    dsimp only
    rw [if_neg (by decide), if_pos rfl]
  have hskip : skipWs (spacedDecision f a x r) = spacedDecision f a x r := by
    rw [hexp]
    exact skipWs_cons_nonws _ (by decide)
  have hlen : 5 ≤ (spacedDecision f a x r).length := by
    rw [hexp]
    simp only [List.length_cons, List.length_append]
    omega
  obtain ⟨k, hk⟩ : ∃ k, (spacedDecision f a x r).length = k + 5 :=
    ⟨(spacedDecision f a x r).length - 5, by omega⟩
  unfold parseJson
  dsimp only
  rw [hskip, hk, hexp]
  rw [show ∀ (T : List Char),
      parseValue (k + 5 + 1) (lbC :: (qC :: T)) = parseMembers (k + 5) (qC :: T) []
      from fun T => rfl]
  rw [show (k + 5 : Nat) = k + 3 + 1 + 1 from rfl]
  rw [hm1]
  rw [hm2 (k + 3) (by omega)]
  rw [show (k + 3 : Nat) = k + 1 + 1 + 1 from rfl]
  rw [hm3]
  dsimp only
  rw [show skipWs ([] : List Char) = [] from rfl, if_pos rfl]
  have hnb : keysNodupB ((([] ++ [((("function")), Json.str f)]) ++
      [((("parameters")), Json.obj [(a, Json.str x)])]) ++
      [((("reasoning")), Json.str r)]) = true := by rfl
  rw [dedupPairs_self _ hnb]
  rfl

theorem cleanJson_fencedDecision (f a x r : String)
    (hf : f.data.all plainC = true) (ha : a.data.all plainC = true)
    (hx : x.data.all plainC = true) (hr : r.data.all plainC = true) :
    cleanJsonResponse (fencedDecision f a x r) =
      .ok (dumpJson (decisionObj f a x r)) := by
  rw [cleanJson_fenced_data (fencedDecision f a x r) [] (fencedMid f a x r) []
    (fencedDecision_decomp f a x r) (by intro c hc; simp at hc)
    (fencedMid_no_bq f a x r hf ha hx hr)]
  rw [stripJsonTag_fencedMid]
  unfold tailPhase
  dsimp only
  rw [pyStripL_fencedTail f a x r]
  rw [collapseL_fencedBody f a x r hf ha hx hr]
  rw [parseJson_spacedDecision f a x r hf ha hx hr]

/-- C6: for every decision object `{"function":f,"parameters":{a:x},
"reasoning":r}` over fence-free, whitespace-free printable strings, the
normalizer maps the fenced form — code fences, a leading `json` language
tag, and a newline after each top-level comma — to exactly the output it
produces on the unwrapped single-line canonical form: both normalize to the
compact `json.dumps` of the same decision object. -/
theorem claim_C6_fence_roundtrip (f a x r : String)
    (hf : f.data.all plainC = true) (ha : a.data.all plainC = true)
    (hx : x.data.all plainC = true) (hr : r.data.all plainC = true) :
    cleanJsonResponse (fencedDecision f a x r) =
      cleanJsonResponse (singleLineDecision f a x r) := by
  rw [cleanJson_fencedDecision f a x r hf ha hx hr]
  rw [show singleLineDecision f a x r = dumpJson (decisionObj f a x r)
    from rfl]
  rw [cleanJson_dump_plain _ (plainJ_decisionObj f a x r hf ha hx hr)]

theorem claim_C6_witness :
    (("get_weather")).data.all plainC = true ∧
    (("location")).data.all plainC = true ∧
    (("New-York")).data.all plainC = true ∧
    (("routing")).data.all plainC = true ∧
    cleanJsonResponse
        (fencedDecision ("get_weather") ("location") ("New-York")
          ("routing")) =
      cleanJsonResponse
        (singleLineDecision ("get_weather") ("location") ("New-York")
          ("routing")) :=
  ⟨by decide, by decide, by decide, by decide,
    claim_C6_fence_roundtrip ("get_weather") ("location") ("New-York")
      ("routing") (by decide) (by decide) (by decide) (by decide)⟩
